import Mathlib

/-!
Verification of the crisis-simulation core: a shallow embedding of the
directive interpreter (`src/frontend/crisis_simulation_updated.py`,
`update_game_state` and the `run_simulation` turn step), the response parser
(`src/backend/app/services.py`, `process_user_decision`), and the completion
client (`src/backend/app/services.py`, `get_mistral_response`).

Strings are modelled as `List Char`.  Python's regular-expression character
classes `\w`, `\d`, `\s` are modelled over their ASCII meaning (the repo only
ever feeds ASCII directive templates and markers); Python `str.strip()` is
modelled as stripping the same ASCII whitespace.  Python `float` values are
only ever stored and compared by this program, never rounded, so they are
modelled exactly as rationals.  Each scanner below mirrors one fixed regular
expression of the source; comments on the definitions record the source
pattern and why the backtracking of the Python engine degenerates to the
deterministic scan implemented here.
-/

namespace Crisis

/-- The characters of a Lean string literal, used to write concrete
Python-side strings. -/
def strL (s : String) : List Char := s.data

/-- Python `\d` (ASCII): `'0'`–`'9'`. -/
def isDigitC (c : Char) : Bool := c.isDigit

/-- Python `\w` (ASCII): letters, digits and underscore. -/
def isWordC (c : Char) : Bool := c.isAlpha || c.isDigit || c = '_'

/-- The character class `[\w\.]` of the generic key-path pattern. -/
def isKeyC (c : Char) : Bool := isWordC c || c = '.'

/-- Python `\s` (ASCII): space, tab, newline, carriage return, vertical tab,
form feed.  `str.strip()` strips the same set. -/
def isSpaceC (c : Char) : Bool :=
  c = ' ' || c = '\t' || c = '\n' || c = '\r' || c = Char.ofNat 11 || c = Char.ofNat 12

/-- The character class `["']` used for the optional quotes of patterns 4–7. -/
def isQuoteC (c : Char) : Bool := c = '"' || c = Char.ofNat 39

/-- Python `str.strip()`: drop ASCII whitespace from both ends. -/
def pyStrip (l : List Char) : List Char :=
  ((l.dropWhile isSpaceC).reverse.dropWhile isSpaceC).reverse

/-- Value of a decimal digit string, as `int()` parses the group of `(\d+)`. -/
def natOfDigits (l : List Char) : Nat :=
  l.foldl (fun a c => 10 * a + (c.toNat - 48)) 0

/-- Python `str.split('.')` (keeps empty segments, never returns `[]`). -/
def splitDot (l : List Char) : List (List Char) :=
  match l with
  | [] => [[]]
  | c :: rest =>
    let r := splitDot rest
    if c = '.' then [] :: r
    else
      match r with
      | [] => [[c]]
      | seg :: segs => (c :: seg) :: segs

/-- A Python value as stored in the session state: the JSON-ish universe the
interpreter manipulates.  Dictionaries are insertion-ordered association
lists, exactly like Python dicts.  Floats are stored exactly (see the file
comment). -/
inductive Val where
  | vInt : Int → Val
  | vFloat : Rat → Val
  | vStr : List Char → Val
  | vList : List Val → Val
  | vDict : List (List Char × Val) → Val

/-- A Python dict of `Val`s: insertion-ordered association list. -/
abbrev Dict := List (List Char × Val)

/-- Python `d[k]` read / `k in d`:  first (unique) binding of `k`. -/
def alookup : Dict → List Char → Option Val
  | [], _ => none
  | (k', v') :: rest, k => if k' = k then some v' else alookup rest k

/-- Python `d[k] = v`: overwrite in place keeping insertion order, else
append a new binding at the end. -/
def aset : Dict → List Char → Val → Dict
  | [], k, v => [(k, v)]
  | (k', v') :: rest, k, v =>
    if k' = k then (k, v) :: rest else (k', v') :: aset rest k v

/-- Python `k in d`. -/
def amem (d : Dict) (k : List Char) : Bool := (alookup d k).isSome

/-- `float(s)` for a string `s` that passed the coercion test
`s.replace('.', '', 1).isdigit() and s.count('.') <= 1`: digits with at most
one decimal point.  Such literals are decimal, hence exact as rationals. -/
def ratOfFloatChars (l : List Char) : Rat :=
  let fp := (l.dropWhile (fun c => c ≠ '.')).drop 1
  mkRat (Int.ofNat (natOfDigits (l.takeWhile (fun c => c ≠ '.')) * 10 ^ fp.length
    + natOfDigits fp)) (10 ^ fp.length)

/-- The value coercion of the generic key-path fallback
(`crisis_simulation_updated.py:274-283`): all-digits text becomes `int`,
single-decimal-point numeric text becomes `float`, anything else stays a
string.  (`"".isdigit()` is `False` in Python, hence the nonempty checks.) -/
def coerceVal (l : List Char) : Val :=
  if l ≠ [] ∧ l.all isDigitC then Val.vInt (natOfDigits l)
  else
    let dotless := (l.takeWhile (fun c => c ≠ '.')) ++ ((l.dropWhile (fun c => c ≠ '.')).drop 1)
    if dotless ≠ [] ∧ dotless.all isDigitC ∧ (l.filter (fun c => c = '.')).length ≤ 1 then
      Val.vFloat (ratOfFloatChars l)
    else Val.vStr l

/-- Case-insensitive literal match: `litCI pat s` consumes `pat` (written in
lowercase) from the front of `s` case-insensitively — `re.IGNORECASE` applies
to literals too — returning the rest of `s`. -/
def litCI : List Char → List Char → Option (List Char)
  | [], s => some s
  | _ :: _, [] => none
  | p :: ps, c :: cs => if c.toLower = p then litCI ps cs else none

/-- Case-sensitive literal match (for the one pattern compiled without
`re.IGNORECASE`). -/
def litCS : List Char → List Char → Option (List Char)
  | [], s => some s
  | _ :: _, [] => none
  | p :: ps, c :: cs => if c = p then litCS ps cs else none

/-- `\s+` (greedy): at least one whitespace character, then the maximal run.
In every pattern modelled here the element after a `\s+` either can never
match a whitespace character (a literal or a disjoint class) or can only
fail on an interior newline that a shorter whitespace run cannot avoid, so
the Python engine never backs off the maximal run. -/
def ws1 : List Char → Option (List Char)
  | [] => none
  | c :: cs => if isSpaceC c then some (cs.dropWhile isSpaceC) else none

/-- `(\w+)` (greedy; always followed by `\s+` here, and `\w` is disjoint from
`\s`, so the maximal run is forced). -/
def takeWord (s : List Char) : Option (List Char × List Char) :=
  let w := s.takeWhile isWordC
  if w = [] then none else some (w, s.dropWhile isWordC)

/-- `(\d+)` (greedy): maximal digit run, with the value `int()` parses. -/
def takeDigits (s : List Char) : Option (Nat × List Char) :=
  let w := s.takeWhile isDigitC
  if w = [] then none else some (natOfDigits w, s.dropWhile isDigitC)

/-- `([\w\.]+)` of the generic key-path pattern (greedy; followed by `\s+`). -/
def takeKeyPath (s : List Char) : Option (List Char × List Char) :=
  let w := s.takeWhile isKeyC
  if w = [] then none else some (w, s.dropWhile isKeyC)

/-- Does `$` match at this point?  Without `re.MULTILINE`, `$` matches at the
end of the string and just before a trailing final newline — i.e. exactly at
`[]` and at `['\n']`. -/
def dollarAt : List Char → Bool
  | [] => true
  | [c] => decide (c = '\n')
  | _ => false

/-- The lazy capture of `(.*?)["']?$` (no `re.DOTALL`, so `.` cannot match a
newline): the shortest prefix whose end satisfies `["']?$`; `none` when an
interior newline blocks every admissible end. -/
def lazyQDollar : List Char → Option (List Char)
  | [] => some []
  | c :: rest =>
    if dollarAt (c :: rest) then some []
    else if isQuoteC c && dollarAt rest then some []
    else if c = '\n' then none
    else (lazyQDollar rest).map (fun t => c :: t)

/-- The tail `["']?(.*?)["']?$` shared by patterns 4–7: an optional (greedy)
opening quote, then the lazy capture.  When the opening-quote branch fails
the engine retries with the quote unconsumed (the fallback can be shown
never to rescue the match, but it is kept to mirror the engine). -/
def quoteTail : List Char → Option (List Char)
  | [] => lazyQDollar []
  | c :: rest =>
    if isQuoteC c then
      match lazyQDollar rest with
      | some g => some g
      | none => lazyQDollar (c :: rest)
    else lazyQDollar (c :: rest)

/-- `re.search`: try the position matcher at every start, leftmost first. -/
def searchWith {α : Type} (m : List Char → Option α) : List Char → Option α
  | [] => m []
  | c :: cs =>
    match m (c :: cs) with
    | some r => some r
    | none => searchWith m cs

/-- `decrease\s+resources\.(\w+)\s+by\s+(\d+)` (IGNORECASE) attempted at one
start position (`crisis_simulation_updated.py:189`). -/
def matchDecreaseAt (s : List Char) : Option (List Char × Nat) := do
  let s ← litCI (strL "decrease") s
  let s ← ws1 s
  let s ← litCI (strL "resources.") s
  let (w, s) ← takeWord s
  let s ← ws1 s
  let s ← litCI (strL "by") s
  let s ← ws1 s
  let (n, _) ← takeDigits s
  some (w, n)

/-- The `re.search` for the decrease pattern. -/
def searchDecrease : List Char → Option (List Char × Nat) :=
  searchWith matchDecreaseAt

/-- `increase\s+resources\.(\w+)\s+by\s+(\d+)` (IGNORECASE) at one start
position (`crisis_simulation_updated.py:201`). -/
def matchIncreaseAt (s : List Char) : Option (List Char × Nat) := do
  let s ← litCI (strL "increase") s
  let s ← ws1 s
  let s ← litCI (strL "resources.") s
  let (w, s) ← takeWord s
  let s ← ws1 s
  let s ← litCI (strL "by") s
  let s ← ws1 s
  let (n, _) ← takeDigits s
  some (w, n)

/-- The `re.search` for the increase pattern. -/
def searchIncrease : List Char → Option (List Char × Nat) :=
  searchWith matchIncreaseAt

/-- `set\s+resources\.(\w+)\s+to\s+(\d+)` (IGNORECASE) at one start position
(`crisis_simulation_updated.py:215`). -/
def matchSetResAt (s : List Char) : Option (List Char × Nat) := do
  let s ← litCI (strL "set") s
  let s ← ws1 s
  let s ← litCI (strL "resources.") s
  let (w, s) ← takeWord s
  let s ← ws1 s
  let s ← litCI (strL "to") s
  let s ← ws1 s
  let (n, _) ← takeDigits s
  some (w, n)

/-- The `re.search` for the set-resource pattern. -/
def searchSetRes : List Char → Option (List Char × Nat) :=
  searchWith matchSetResAt

/-- `update\s+status\s+to\s+["']?(.*?)["']?$` (IGNORECASE, no DOTALL) at one
start position (`crisis_simulation_updated.py:227`). -/
def matchStatusAt (s : List Char) : Option (List Char) := do
  let s ← litCI (strL "update") s
  let s ← ws1 s
  let s ← litCI (strL "status") s
  let s ← ws1 s
  let s ← litCI (strL "to") s
  let s ← ws1 s
  quoteTail s

/-- The `re.search` for the status pattern. -/
def searchStatus : List Char → Option (List Char) :=
  searchWith matchStatusAt

/-- The continuation `["']?\s+to\s+["']?(.*?)["']?$` tried at each candidate
end of the first lazy group of the family pattern; returns the second
group. -/
def famCont (l : List Char) : Option (List Char) :=
  let go : List Char → Option (List Char) := fun l2 => do
    let s ← ws1 l2
    let s ← litCI (strL "to") s
    let s ← ws1 s
    quoteTail s
  match l with
  | [] => none
  | c :: rest =>
    if isQuoteC c then
      match go rest with
      | some g => some g
      | none => go (c :: rest)
    else go (c :: rest)

/-- The first lazy group `(.*?)` of the family pattern: scan forward trying
`famCont` at each position (lazy), `.` unable to cross a newline. -/
def famScanFrom : List Char → Option (List Char × List Char)
  | [] => none
  | c :: rest =>
    match famCont (c :: rest) with
    | some g2 => some ([], g2)
    | none =>
      if c = '\n' then none
      else (famScanFrom rest).map (fun p => (c :: p.1, p.2))

/-- The optional (greedy) opening quote before the first family group, with
the engine's unconsumed-quote fallback. -/
def famGroups : List Char → Option (List Char × List Char)
  | [] => famScanFrom []
  | c :: rest =>
    if isQuoteC c then
      match famScanFrom rest with
      | some p => some p
      | none => famScanFrom (c :: rest)
    else famScanFrom (c :: rest)

/-- `update\s+family\s+member\s+["']?(.*?)["']?\s+to\s+["']?(.*?)["']?$`
(IGNORECASE, no DOTALL) at one start position
(`crisis_simulation_updated.py:234`). -/
def matchFamilyAt (s : List Char) : Option (List Char × List Char) := do
  let s ← litCI (strL "update") s
  let s ← ws1 s
  let s ← litCI (strL "family") s
  let s ← ws1 s
  let s ← litCI (strL "member") s
  let s ← ws1 s
  famGroups s

/-- The `re.search` for the family pattern. -/
def searchFamily : List Char → Option (List Char × List Char) :=
  searchWith matchFamilyAt

/-- `add\s+(\w+)\s+["']?(.*?)["']?$` (IGNORECASE, no DOTALL) at one start
position (`crisis_simulation_updated.py:249`). -/
def matchAddAt (s : List Char) : Option (List Char × List Char) := do
  let s ← litCI (strL "add") s
  let s ← ws1 s
  let (w, s) ← takeWord s
  let s ← ws1 s
  let g ← quoteTail s
  some (w, g)

/-- The `re.search` for the add pattern. -/
def searchAdd : List Char → Option (List Char × List Char) :=
  searchWith matchAddAt

/-- `set\s+([\w\.]+)\s+to\s+["']?(.*?)["']?$` (IGNORECASE, no DOTALL) at one
start position — the generic key-path fallback
(`crisis_simulation_updated.py:260`). -/
def matchKVAt (s : List Char) : Option (List Char × List Char) := do
  let s ← litCI (strL "set") s
  let s ← ws1 s
  let (k, s) ← takeKeyPath s
  let s ← ws1 s
  let s ← litCI (strL "to") s
  let s ← ws1 s
  let g ← quoteTail s
  some (k, g)

/-- The `re.search` for the generic key-path pattern. -/
def searchKV : List Char → Option (List Char × List Char) :=
  searchWith matchKVAt

/-- `Day (\d+)` — the one case-SENSITIVE pattern
(`crisis_simulation_updated.py:295`) — at one start position. -/
def matchDayAt (s : List Char) : Option Nat := do
  let s ← litCS (strL "Day ") s
  let (n, _) ← takeDigits s
  some n

/-- The `re.search` for the day pattern. -/
def searchDay : List Char → Option Nat :=
  searchWith matchDayAt

/-- The decrease branch (`crisis_simulation_updated.py:190-198`): mutate only
when `resources` is a dict containing the key.  A non-dict `resources` or a
non-numeric entry makes the Python statement raise before assigning, and the
per-directive `except` swallows it, so nothing changes.  Python's
`max(0, x)` returns its first argument — the int `0` — when `x ≤ 0`, hence
the float case. -/
def decreaseMut (st : Dict) (res : List Char) (amt : Nat) : Dict :=
  match alookup st (strL "resources") with
  | some (Val.vDict d) =>
    match alookup d res with
    | some (Val.vInt v) =>
      aset st (strL "resources") (Val.vDict (aset d res (Val.vInt (max 0 (v - (amt : Int))))))
    | some (Val.vFloat q) =>
      aset st (strL "resources") (Val.vDict (aset d res
        (if (amt : Rat) < q then Val.vFloat (q - (amt : Rat)) else Val.vInt 0)))
    | some _ => st
    | none => st
  | some _ => st
  | none => st

/-- The increase branch (`crisis_simulation_updated.py:201-212`): the
membership test uses `state.get("resources", {})` but the assignment indexes
`state["resources"]` directly, so when the state has no `resources` dict the
else-branch raises `KeyError`; non-numeric operands raise `TypeError`.  The
per-directive `except` swallows both with no mutation. -/
def increaseMut (st : Dict) (res : List Char) (amt : Nat) : Dict :=
  match alookup st (strL "resources") with
  | some (Val.vDict d) =>
    match alookup d res with
    | some (Val.vInt v) =>
      aset st (strL "resources") (Val.vDict (aset d res (Val.vInt (v + (amt : Int)))))
    | some (Val.vFloat q) =>
      aset st (strL "resources") (Val.vDict (aset d res (Val.vFloat (q + (amt : Rat)))))
    | some _ => st
    | none => aset st (strL "resources") (Val.vDict (aset d res (Val.vInt amt)))
  | some _ => st
  | none => st

/-- The set-resource branch (`crisis_simulation_updated.py:216-224`): creates
the `resources` dict when absent; item assignment into an existing non-dict
raises and is swallowed. -/
def setResMut (st : Dict) (res : List Char) (amt : Nat) : Dict :=
  match alookup st (strL "resources") with
  | some (Val.vDict d) => aset st (strL "resources") (Val.vDict (aset d res (Val.vInt amt)))
  | some _ => st
  | none => aset st (strL "resources") (Val.vDict [(res, Val.vInt amt)])

/-- The status branch (`crisis_simulation_updated.py:228-231`):
`state["status"] = group.strip()`. -/
def statusMut (st : Dict) (g : List Char) : Dict :=
  aset st (strL "status") (Val.vStr (pyStrip g))

/-- The family branch (`crisis_simulation_updated.py:235-246`): create
`family_status` when absent; item assignment into an existing non-dict
raises and is swallowed (no creation happened in that case). -/
def familyMut (st : Dict) (member stat : List Char) : Dict :=
  match alookup st (strL "family_status") with
  | some (Val.vDict d) =>
    aset st (strL "family_status") (Val.vDict (aset d (pyStrip member) (Val.vStr (pyStrip stat))))
  | some _ => st
  | none => aset st (strL "family_status") (Val.vDict [(pyStrip member, Val.vStr (pyStrip stat))])

/-- The add branch (`crisis_simulation_updated.py:250-257`): create an empty
list when the key is absent; append (the stripped value) only when the value
at the key is a list. -/
def addMut (st : Dict) (cat g : List Char) : Dict :=
  match alookup st cat with
  | some (Val.vList l) => aset st cat (Val.vList (l ++ [Val.vStr (pyStrip g)]))
  | some _ => st
  | none => aset st cat (Val.vList [Val.vStr (pyStrip g)])

/-- Fresh nested dicts built by the key-path walk after a missing key: from
then on every level is a newly created dict and nothing can raise. -/
def buildNest : List Char → List (List Char) → Val → Dict
  | k, [], v => [(k, v)]
  | k, k2 :: rest, v => [(k, Val.vDict (buildNest k2 rest v))]

/-- The key-path walk-and-assign (`crisis_simulation_updated.py:266-283`).
`none` models a raise: the walk reaches an existing non-dict value and the
membership test or the item assignment raises (`in` on an int raises
`TypeError` directly; on a string it is a substring test but string item
assignment / string-key indexing then raises).  A raise can only happen
before any dict was created — creation switches the walk into fresh dicts —
so `none` always means the state is unchanged. -/
def walkSet (d : Dict) (k : List Char) (rest : List (List Char)) (v : Val) : Option Dict :=
  match rest with
  | [] => some (aset d k v)
  | k2 :: rest2 =>
    match alookup d k with
    | some (Val.vDict d2) => (walkSet d2 k2 rest2 v).map (fun d2x => aset d k (Val.vDict d2x))
    | some _ => none
    | none => some (aset d k (Val.vDict (buildNest k2 rest2 v)))

/-- The generic key-path branch (`crisis_simulation_updated.py:260-283`):
split the path on `.`, walk/create, coerce the value, assign; a raise is
swallowed by the per-directive `except` leaving the state unchanged. -/
def kvMut (st : Dict) (path g : List Char) : Dict :=
  match splitDot path with
  | [] => st
  | k :: rest =>
    match walkSet st k rest (coerceVal g) with
    | some st2 => st2
    | none => st

/-- One directive through the pattern cascade — the body of the `for mod`
loop (`crisis_simulation_updated.py:183-291`): the first pattern whose
`re.search` succeeds fires (each matched branch ends in `continue`), an
unmatched directive is dropped. -/
def applyMod (st : Dict) (mod : List Char) : Dict :=
  match searchDecrease mod with
  | some (res, amt) => decreaseMut st res amt
  | none =>
  match searchIncrease mod with
  | some (res, amt) => increaseMut st res amt
  | none =>
  match searchSetRes mod with
  | some (res, amt) => setResMut st res amt
  | none =>
  match searchStatus mod with
  | some g => statusMut st g
  | none =>
  match searchFamily mod with
  | some p => familyMut st p.1 p.2
  | none =>
  match searchAdd mod with
  | some p => addMut st p.1 p.2
  | none =>
  match searchKV mod with
  | some p => kvMut st p.1 p.2
  | none => st

/-- The directive loop of `update_game_state`. -/
def applyMods (st : Dict) : List (List Char) → Dict
  | [] => st
  | m :: ms => applyMods (applyMod st m) ms

/-- Result of `update_game_state`: normally the new state and new day
counter; `raised` models the uncaught `TypeError` of
`re.search(r"Day (\d+)", status)` on a non-string `status`
(`crisis_simulation_updated.py:295`) — the in-place directive mutations have
already happened but the tracked day counter was never touched. -/
inductive UgsResult where
  | ok : Dict → Nat → UgsResult
  | raised : Dict → Nat → UgsResult

/-- The session state after the call (mutations are in place, so it is the
same object whether or not the trailing day logic raised). -/
def UgsResult.state : UgsResult → Dict
  | .ok st _ => st
  | .raised st _ => st

/-- The tracked day counter after the call. -/
def UgsResult.day : UgsResult → Nat
  | .ok _ d => d
  | .raised _ d => d

/-- `update_game_state(modifications)`
(`crisis_simulation_updated.py:178-302`), with the ambient
`st.session_state` fields passed explicitly: apply every directive, then
bump a `"Day <N>"` status matching the tracked day counter, then increment
the counter. -/
def update_game_state (mods : List (List Char)) (st : Dict) (day : Nat) : UgsResult :=
  let st1 := applyMods st mods
  match alookup st1 (strL "status") with
  | some (Val.vStr s) =>
    match searchDay s with
    | some n =>
      if n = day then
        UgsResult.ok (aset st1 (strL "status")
          (Val.vStr (strL "Day " ++ (Nat.repr (day + 1)).data))) (day + 1)
      else UgsResult.ok st1 (day + 1)
    | none => UgsResult.ok st1 (day + 1)
  | none => UgsResult.ok st1 (day + 1)
  | some _ => UgsResult.raised st1 day

/-- The session phases of the front-end state machine. -/
inductive Phase where
  | collectingInfo
  | generatingScenario
  | inSimulation
  | recap
deriving DecidableEq

/-- The session context one turn manipulates: the tracked day counter, the
mutable state and the phase. -/
structure Sim where
  day : Nat
  st : Dict
  phase : Phase

/-- `resources.get('food', 1) <= 0` under Python's dynamic typing: `some b`
is the comparison result (`1 <= 0` is `False` when the key is absent),
`none` a `TypeError` (a string/list/dict entry compared with an int). -/
def leZeroGet (v : Option Val) : Option Bool :=
  match v with
  | none => some false
  | some (Val.vInt n) => some (decide (n ≤ 0))
  | some (Val.vFloat q) => some (decide (q ≤ 0))
  | some _ => none

/-- The end-of-turn check of `run_simulation`
(`crisis_simulation_updated.py:385`) with Python's short-circuit `or`:
`current_day > 10 or resources.get('food', 1) <= 0 or resources.get('water', 1) <= 0`.
`none` models an uncaught exception: a non-dict `resources` has no `.get`,
a non-numeric entry cannot be compared with `0`. -/
def endCheck (day : Nat) (resv : Option Val) : Option Bool :=
  if day > 10 then some true
  else
    match resv with
    | none => some false
    | some (Val.vDict d) =>
      match leZeroGet (alookup d (strL "food")) with
      | none => none
      | some true => some true
      | some false => leZeroGet (alookup d (strL "water"))
    | some _ => none

/-- One applied turn of `run_simulation` from the point where a non-empty
backend response arrived (`crisis_simulation_updated.py:379-392`): run
`update_game_state`, then the end-of-turn check sets the phase to `recap`.
An exception — from `update_game_state`'s day logic or from the check —
leaves the phase as it was, keeping whatever mutations already happened. -/
def run_simulation_turn (mods : List (List Char)) (s : Sim) : Sim :=
  match update_game_state mods s.st s.day with
  | UgsResult.raised st1 d1 => { day := d1, st := st1, phase := s.phase }
  | UgsResult.ok st1 d1 =>
    match endCheck d1 (alookup st1 (strL "resources")) with
    | some true => { day := d1, st := st1, phase := Phase.recap }
    | some false => { day := d1, st := st1, phase := s.phase }
    | none => { day := d1, st := st1, phase := s.phase }

/-- A sequence of processed turns, each carrying its directive list. -/
def runTurns (s : Sim) : List (List (List Char)) → Sim
  | [] => s
  | m :: ms => runTurns (run_simulation_turn m s) ms

/-- Suffix right after the first occurrence of a (case-sensitive) marker,
`none` when the marker does not occur.  Both parser patterns start with
their literal marker and the rest of each pattern always succeeds, so
`re.search` anchors at exactly this first occurrence. -/
def afterMarker (marker : List Char) : List Char → Option (List Char)
  | [] => litCS marker []
  | c :: cs =>
    match litCS marker (c :: cs) with
    | some rest => some rest
    | none => afterMarker marker cs

/-- Index of the first occurrence of a marker (used to state marker order). -/
def markerPos (marker : List Char) : List Char → Option Nat
  | [] => if (litCS marker []).isSome then some 0 else none
  | c :: cs =>
    if (litCS marker (c :: cs)).isSome then some 0
    else (markerPos marker cs).map (· + 1)

/-- The lazy narrative capture `(.*?)(?=\nJSON_MODIFICATIONS:|$)` under
`re.DOTALL` (`.` crosses newlines): the shortest prefix ending where
`\nJSON_MODIFICATIONS:` follows or `$` holds (end of string, or just before
a trailing final newline). -/
def lazyNarr : List Char → List Char
  | [] => []
  | c :: rest =>
    if c = '\n' && (litCS (strL "JSON_MODIFICATIONS:") rest).isSome then []
    else if dollarAt (c :: rest) then []
    else c :: lazyNarr rest

/-- The lazy capture `(.*?)(?=$)` under `re.DOTALL`: everything up to the
first `$` position. -/
def lazyDollarAll : List Char → List Char
  | [] => []
  | c :: rest => if dollarAt (c :: rest) then [] else c :: lazyDollarAll rest

/-- `next_situation` (`services.py:240-241`):
`re.search(r"NEXT_SITUATION_DESCRIPTION:\s*(.*?)(?=\nJSON_MODIFICATIONS:|$)", response, re.DOTALL)`
then `.group(1).strip()`, and `""` when there is no match.  The greedy `\s*`
after the marker never backs off (the lazy tail can always reach `$`). -/
def nextSituation (response : List Char) : List Char :=
  match afterMarker (strL "NEXT_SITUATION_DESCRIPTION:") response with
  | none => []
  | some t => pyStrip (lazyNarr (t.dropWhile isSpaceC))

/-- `json_mods_text` (`services.py:243-244`):
`re.search(r"JSON_MODIFICATIONS:\s*(.*?)(?=$)", response, re.DOTALL)` then
`.group(1).strip()`, and `""` when there is no match. -/
def jsonModsText (response : List Char) : List Char :=
  match afterMarker (strL "JSON_MODIFICATIONS:") response with
  | none => []
  | some t => pyStrip (lazyDollarAll (t.dropWhile isSpaceC))

/-- Does the lookahead `(?=\n- |\n\n|$)` ending a dash item hold here?
At the empty remainder `$` holds; at a remainder starting with a character
other than `\n` no alternative can hold (`$` would need `['\n']`); at `\n`
the alternatives are `- ` or `\n` next, or `$` just before a trailing final
newline (remainder exactly `['\n']`). -/
def itemEnd (l : List Char) : Bool :=
  match l with
  | [] => true
  | c :: rest =>
    if c = '\n' then
      match rest with
      | '-' :: ' ' :: _ => true
      | '\n' :: _ => true
      | [] => true
      | _ => false
    else false

/-- `re.findall(r"- (.*?)(?=\n- |\n\n|$)", text, re.DOTALL)`
(`services.py:250`) fused into one scan: outside an item (`false`) look for
the literal `"- "` — anywhere, not only at line starts; inside an item
(`true`) capture lazily until the lookahead holds.  The lookahead consumes
nothing, and the scanner can never match `"- "` at the `\n` a terminator
starts with, so resuming right after that `\n` is faithful. -/
def modsScan : Bool → List Char → List Char → List (List Char)
  | false, _, [] => []
  | false, _, '-' :: ' ' :: rest => modsScan true [] rest
  | false, _, _ :: rest => modsScan false [] rest
  | true, acc, [] => [acc.reverse]
  | true, acc, c :: rest =>
    if itemEnd (c :: rest) then acc.reverse :: modsScan false [] rest
    else modsScan true (c :: acc) rest

/-- The parsed directive list (`services.py:247-251`): findall over the
stripped block, keep the stripped items that are non-empty. -/
def jsonModifications (response : List Char) : List (List Char) :=
  ((modsScan false [] (jsonModsText response)).map pyStrip).filter (fun m => m ≠ [])

/-- The parsing tail of `process_user_decision` (`services.py:240-254`): the
narrative and the directive list extracted from the model's raw text.  It is
a total function — malformed text degrades to empty output, it cannot
raise. -/
def process_user_decision (response : List Char) : List Char × List (List Char) :=
  (nextSituation response, jsonModifications response)

/-- The observable outcome of the HTTP POST inside `get_mistral_response`:
a transport error (`requests.RequestException`), or a response with a status
code and a body — `none` when the body is not valid JSON (`response.json()`
raises), otherwise the parsed JSON value. -/
inductive ApiOutcome where
  | transportError : ApiOutcome
  | httpResponse : Nat → Option Val → ApiOutcome

/-- `result.get("choices", [{}])[0].get("message", {}).get("content", "")`
(`services.py:78`) under Python dynamic typing; `none` models a raise:
`IndexError` on an empty `choices` list, `AttributeError`/`TypeError`/
`KeyError` on non-dict / non-list shapes (indexing a non-list with `0`
either raises or, for a string, yields a one-character string whose `.get`
then raises). -/
def extractContent (body : Val) : Option Val :=
  match body with
  | Val.vDict d =>
    match (alookup d (strL "choices")).getD (Val.vList [Val.vDict []]) with
    | Val.vList [] => none
    | Val.vList (c0 :: _) =>
      match c0 with
      | Val.vDict cd =>
        match (alookup cd (strL "message")).getD (Val.vDict []) with
        | Val.vDict md => some ((alookup md (strL "content")).getD (Val.vStr []))
        | _ => none
      | _ => none
    | _ => none
  | _ => none

/-- `response.raise_for_status()` raises `HTTPError` exactly for status
codes 400–599; any other status, including 600 and above, falls through to
the body handling. -/
def raisesForStatus (code : Nat) : Bool := 400 ≤ code && code ≤ 599

/-- `get_mistral_response` (`services.py:31-90`) as a function of the
network outcome: every raise inside the `try` is caught and turned into
`None`; otherwise the extracted content (default `""`) is returned. -/
def get_mistral_response (o : ApiOutcome) : Option Val :=
  match o with
  | ApiOutcome.transportError => none
  | ApiOutcome.httpResponse code body =>
    if raisesForStatus code then none
    else
      match body with
      | none => none
      | some b => extractContent b

/-! ### Dictionary lemmas -/

theorem alookup_aset_self (d : Dict) (k : List Char) (v : Val) :
    alookup (aset d k v) k = some v := by
  induction d with
  | nil => simp [aset, alookup]
  | cons e rest ih =>
    by_cases h : e.1 = k
    · simp [aset, h, alookup]
    · simp [aset, h, alookup, ih]

theorem alookup_aset_ne (d : Dict) (k k2 : List Char) (v : Val) (h : k2 ≠ k) :
    alookup (aset d k v) k2 = alookup d k2 := by
  have hkk : ¬ (k = k2) := fun hh => h hh.symm
  induction d with
  | nil => simp [aset, alookup, hkk]
  | cons e rest ih =>
    rcases e with ⟨ek, ev⟩
    by_cases he : ek = k
    · subst he
      simp [aset, alookup, hkk]
    · simp only [aset, he, if_false, alookup]
      by_cases he2 : ek = k2
      · simp [he2]
      · simp [he2, ih]

theorem all_aset {P : Val → Bool} (d : Dict) (k : List Char) (v : Val)
    (hd : d.all (fun e => P e.2) = true) (hv : P v = true) :
    (aset d k v).all (fun e => P e.2) = true := by
  induction d with
  | nil => simp [aset, hv]
  | cons e rest ih =>
    simp only [List.all_cons, Bool.and_eq_true] at hd
    by_cases h : e.1 = k
    · simp [aset, h, hv, hd.2]
    · simp [aset, h, hd.1, ih hd.2]

theorem all_alookup {P : Val → Bool} (d : Dict) (k : List Char) (v : Val)
    (hd : d.all (fun e => P e.2) = true) (hv : alookup d k = some v) :
    P v = true := by
  induction d with
  | nil => simp [alookup] at hv
  | cons e rest ih =>
    simp only [List.all_cons, Bool.and_eq_true] at hd
    by_cases h : e.1 = k
    · simp [alookup, h] at hv
      exact hv ▸ hd.1
    · simp [alookup, h] at hv
      exact ih hd.2 hv

/-! ### Character-class facts -/

theorem not_space_of_word {c : Char} (h : isWordC c = true) : isSpaceC c = false := by
  by_contra hs
  rw [Bool.not_eq_false] at hs
  simp only [isSpaceC, Bool.or_eq_true, decide_eq_true_eq] at hs
  rcases hs with ((((h1 | h1) | h1) | h1) | h1) | h1 <;> subst h1 <;> exact absurd h (by decide)

theorem not_space_of_digit {c : Char} (h : isDigitC c = true) : isSpaceC c = false := by
  apply not_space_of_word
  simp [isWordC, isDigitC] at h ⊢
  exact Or.inl (Or.inr h)

theorem word_of_digit {c : Char} (h : isDigitC c = true) : isWordC c = true := by
  simp [isWordC, isDigitC] at h ⊢
  exact Or.inl (Or.inr h)

/-! ### `pyStrip` lemmas -/

theorem pyStrip_eq_rdrop (l : List Char) :
    pyStrip l = List.rdropWhile isSpaceC (l.dropWhile isSpaceC) := by
  simp [pyStrip, List.rdropWhile]

theorem dropWhile_dropWhile (p : Char → Bool) (l : List Char) :
    List.dropWhile p (List.dropWhile p l) = List.dropWhile p l := by
  induction l with
  | nil => simp
  | cons c rest ih =>
    by_cases h : p c
    · simpa [List.dropWhile, h] using ih
    · simp [List.dropWhile, h]

theorem pyStrip_idem (l : List Char) : pyStrip (pyStrip l) = pyStrip l := by
  rw [pyStrip_eq_rdrop, pyStrip_eq_rdrop]
  rcases hm : List.rdropWhile isSpaceC (l.dropWhile isSpaceC) with _ | ⟨c, rest⟩
  · simp [List.rdropWhile]
  · have hpre : List.rdropWhile isSpaceC (l.dropWhile isSpaceC) <+: l.dropWhile isSpaceC :=
      List.rdropWhile_prefix _ _
    rw [hm] at hpre
    have hc : isSpaceC c = false := by
      rcases hpre with ⟨t, ht⟩
      rcases hd : l.dropWhile isSpaceC with _ | ⟨c2, rest2⟩
      · rw [hd] at ht; simp at ht
      · have hhead : ¬ (isSpaceC c2 = true) := by
          have h2 := List.head_dropWhile_not isSpaceC (l := l) (by simp [hd])
          simpa [hd] using h2
        rw [hd] at ht
        have hcc : c = c2 := by
          have := congrArg (fun x => x.head?) ht
          simpa using this
        subst hcc
        simpa using hhead
    have hfix : List.dropWhile isSpaceC (c :: rest) = c :: rest := by
      simp [List.dropWhile, hc]
    rw [hfix, ← hm, List.rdropWhile_idempotent]

theorem pyStrip_eq_nil_iff (l : List Char) :
    pyStrip l = [] ↔ ∀ c ∈ l, isSpaceC c = true := by
  rw [pyStrip_eq_rdrop, List.rdropWhile_eq_nil_iff]
  constructor
  · intro h c hc
    by_cases hin : c ∈ l.dropWhile isSpaceC
    · exact h c hin
    · -- c is in the dropped whitespace prefix
      have : l = l.takeWhile isSpaceC ++ l.dropWhile isSpaceC := by
        simp [List.takeWhile_append_dropWhile]
      rw [this] at hc
      rcases List.mem_append.mp hc with h1 | h1
      · exact List.mem_takeWhile_imp h1
      · exact absurd h1 hin
  · intro h c hc
    exact h c ((List.dropWhile_suffix _).subset hc)

theorem pyStrip_ne_nil (l : List Char) (c : Char) (hc : c ∈ l)
    (hns : isSpaceC c = false) : pyStrip l ≠ [] := by
  intro h
  have := (pyStrip_eq_nil_iff l).mp h c hc
  simp [this] at hns

/-! ### The resources invariant -/

/-- An integer value that is non-negative; non-integer values are
unconstrained. -/
def valIntOK : Val → Bool
  | Val.vInt n => decide (0 ≤ n)
  | _ => true

/-- Every integer entry of the `resources` mapping (when `resources` is a
mapping at all) is non-negative. -/
def resOK (st : Dict) : Bool :=
  match alookup st (strL "resources") with
  | some (Val.vDict d) => d.all (fun e => valIntOK e.2)
  | _ => true

theorem resOK_lookup {st : Dict} {d : Dict}
    (hr : alookup st (strL "resources") = some (Val.vDict d)) (h : resOK st = true) :
    d.all (fun e => valIntOK e.2) = true := by
  unfold resOK at h
  rw [hr] at h
  exact h

theorem resOK_set_dict (st : Dict) (d : Dict)
    (hall : d.all (fun e => valIntOK e.2) = true) :
    resOK (aset st (strL "resources") (Val.vDict d)) = true := by
  unfold resOK
  rw [alookup_aset_self]
  exact hall

theorem resOK_set_other (st : Dict) (k : List Char) (v : Val)
    (hk : k ≠ strL "resources") (h : resOK st = true) :
    resOK (aset st k v) = true := by
  unfold resOK at h ⊢
  rw [alookup_aset_ne _ _ _ _ (fun hh => hk hh.symm)]
  exact h

theorem valIntOK_coerce (g : List Char) : valIntOK (coerceVal g) = true := by
  unfold coerceVal
  split
  · simp only [valIntOK, decide_eq_true_eq]
    exact Int.ofNat_nonneg _
  · dsimp only
    split
    · rfl
    · rfl

theorem resOK_decreaseMut (st : Dict) (res : List Char) (amt : Nat)
    (h : resOK st = true) : resOK (decreaseMut st res amt) = true := by
  unfold decreaseMut
  split
  · rename_i d hr
    split
    · rename_i v0 hv
      refine resOK_set_dict _ _ (all_aset _ _ _ (resOK_lookup hr h) ?_)
      simp only [valIntOK, decide_eq_true_eq]
      exact le_max_left _ _
    · rename_i q hv
      refine resOK_set_dict _ _ (all_aset _ _ _ (resOK_lookup hr h) ?_)
      split <;> simp [valIntOK]
    · exact h
    · exact h
  · exact h
  · exact h

theorem resOK_increaseMut (st : Dict) (res : List Char) (amt : Nat)
    (h : resOK st = true) : resOK (increaseMut st res amt) = true := by
  unfold increaseMut
  split
  · rename_i d hr
    split
    · rename_i v0 hv
      have hv0 : valIntOK (Val.vInt v0) = true := all_alookup _ _ _ (resOK_lookup hr h) hv
      refine resOK_set_dict _ _ (all_aset _ _ _ (resOK_lookup hr h) ?_)
      simp only [valIntOK, decide_eq_true_eq] at hv0 ⊢
      omega
    · rename_i q hv
      refine resOK_set_dict _ _ (all_aset _ _ _ (resOK_lookup hr h) ?_)
      simp [valIntOK]
    · exact h
    · refine resOK_set_dict _ _ (all_aset _ _ _ (resOK_lookup hr h) ?_)
      simp [valIntOK]
  · exact h
  · exact h

theorem resOK_setResMut (st : Dict) (res : List Char) (amt : Nat)
    (h : resOK st = true) : resOK (setResMut st res amt) = true := by
  unfold setResMut
  split
  · rename_i d hr
    refine resOK_set_dict _ _ (all_aset _ _ _ (resOK_lookup hr h) ?_)
    simp [valIntOK]
  · exact h
  · refine resOK_set_dict _ _ ?_
    simp [valIntOK]

theorem resOK_statusMut (st : Dict) (g : List Char)
    (h : resOK st = true) : resOK (statusMut st g) = true := by
  exact resOK_set_other _ _ _ (by decide) h

theorem resOK_familyMut (st : Dict) (member stat : List Char)
    (h : resOK st = true) : resOK (familyMut st member stat) = true := by
  unfold familyMut
  split
  · exact resOK_set_other _ _ _ (by decide) h
  · exact h
  · exact resOK_set_other _ _ _ (by decide) h

theorem resOK_set_vList (st : Dict) (k : List Char) (l : List Val)
    (h : resOK st = true) : resOK (aset st k (Val.vList l)) = true := by
  by_cases hk : k = strL "resources"
  · subst hk
    unfold resOK
    rw [alookup_aset_self]
  · exact resOK_set_other _ _ _ hk h

theorem resOK_addMut (st : Dict) (cat g : List Char)
    (h : resOK st = true) : resOK (addMut st cat g) = true := by
  unfold addMut
  split
  · exact resOK_set_vList _ _ _ h
  · exact h
  · exact resOK_set_vList _ _ _ h

theorem all_buildNest (k : List Char) (rest : List (List Char)) (v : Val)
    (hv : valIntOK v = true) :
    (buildNest k rest v).all (fun e => valIntOK e.2) = true := by
  cases rest with
  | nil => simp [buildNest, hv]
  | cons k2 rest2 => simp [buildNest, valIntOK]

theorem all_walkSet {d d2 : Dict} {k : List Char} {rest : List (List Char)} {v : Val}
    (hw : walkSet d k rest v = some d2) (hd : d.all (fun e => valIntOK e.2) = true)
    (hv : valIntOK v = true) : d2.all (fun e => valIntOK e.2) = true := by
  cases rest with
  | nil =>
    simp only [walkSet, Option.some.injEq] at hw
    exact hw ▸ all_aset _ _ _ hd hv
  | cons k2 rest2 =>
    simp only [walkSet] at hw
    cases hl : alookup d k with
    | none =>
      rw [hl] at hw
      simp only [Option.some.injEq] at hw
      exact hw ▸ all_aset _ _ _ hd (by simp [valIntOK])
    | some w =>
      rw [hl] at hw
      cases w with
      | vDict dd =>
        simp only [Option.map_eq_some'] at hw
        rcases hw with ⟨dx, _, hw2⟩
        exact hw2 ▸ all_aset _ _ _ hd (by simp [valIntOK])
      | vInt n => simp at hw
      | vFloat q => simp at hw
      | vStr s => simp at hw
      | vList l => simp at hw

theorem resOK_kvMut (st : Dict) (path g : List Char)
    (h : resOK st = true) : resOK (kvMut st path g) = true := by
  unfold kvMut
  split
  · exact h
  · rename_i k rest hs
    rcases hw : walkSet st k rest (coerceVal g) with _ | st2
    · dsimp only
      exact h
    · dsimp only
      by_cases hk : k = strL "resources"
      · subst hk
        cases rest with
        | nil =>
          simp only [walkSet, Option.some.injEq] at hw
          subst hw
          unfold resOK
          rw [alookup_aset_self]
          cases hc : coerceVal g with
          | vDict dd =>
            exfalso
            unfold coerceVal at hc
            by_cases h1 : g ≠ [] ∧ g.all isDigitC
            · simp [h1] at hc
            · simp only [h1, if_false] at hc
              split at hc <;> simp at hc
          | vInt n => rfl
          | vFloat q => rfl
          | vStr s => rfl
          | vList l => rfl
        | cons k2 rest2 =>
          simp only [walkSet] at hw
          cases hl : alookup st (strL "resources") with
          | none =>
            rw [hl] at hw
            simp only [Option.some.injEq] at hw
            subst hw
            exact resOK_set_dict _ _ (all_buildNest _ _ _ (valIntOK_coerce g))
          | some w =>
            rw [hl] at hw
            cases w with
            | vDict dd =>
              simp only [Option.map_eq_some'] at hw
              rcases hw with ⟨dx, hwx, hw2⟩
              subst hw2
              exact resOK_set_dict _ _ (all_walkSet hwx (resOK_lookup hl h) (valIntOK_coerce g))
            | vInt n => simp at hw
            | vFloat q => simp at hw
            | vStr s => simp at hw
            | vList l => simp at hw
      · -- the walk writes under a key other than `resources`
        cases rest with
        | nil =>
          simp only [walkSet, Option.some.injEq] at hw
          subst hw
          exact resOK_set_other _ _ _ hk h
        | cons k2 rest2 =>
          simp only [walkSet] at hw
          cases hl : alookup st k with
          | none =>
            rw [hl] at hw
            simp only [Option.some.injEq] at hw
            subst hw
            exact resOK_set_other _ _ _ hk h
          | some w =>
            rw [hl] at hw
            cases w with
            | vDict dd =>
              simp only [Option.map_eq_some'] at hw
              rcases hw with ⟨dx, _, hw2⟩
              subst hw2
              exact resOK_set_other _ _ _ hk h
            | vInt n => simp at hw
            | vFloat q => simp at hw
            | vStr s => simp at hw
            | vList l => simp at hw

theorem resOK_applyMod (st : Dict) (mod : List Char)
    (h : resOK st = true) : resOK (applyMod st mod) = true := by
  unfold applyMod
  split
  · exact resOK_decreaseMut _ _ _ h
  · split
    · exact resOK_increaseMut _ _ _ h
    · split
      · exact resOK_setResMut _ _ _ h
      · split
        · exact resOK_statusMut _ _ h
        · split
          · exact resOK_familyMut _ _ _ h
          · split
            · exact resOK_addMut _ _ _ h
            · split
              · exact resOK_kvMut _ _ _ h
              · exact h

theorem resOK_applyMods (mods : List (List Char)) (st : Dict)
    (h : resOK st = true) : resOK (applyMods st mods) = true := by
  induction mods generalizing st with
  | nil => exact h
  | cons m ms ih => exact ih _ (resOK_applyMod _ _ h)

theorem resOK_update_game_state (mods : List (List Char)) (st : Dict) (day : Nat)
    (h : resOK st = true) : resOK (update_game_state mods st day).state = true := by
  have h1 := resOK_applyMods mods st h
  unfold update_game_state
  dsimp only
  split
  · split
    · split
      · simp only [UgsResult.state]
        exact resOK_set_other _ _ _ (by decide) h1
      · simp only [UgsResult.state]
        exact h1
    · simp only [UgsResult.state]
      exact h1
  · simp only [UgsResult.state]
    exact h1
  · simp only [UgsResult.state]
    exact h1

/-! ### Scanner lemmas for well-formed directive templates -/

theorem litCI_self (p s : List Char) (hp : ∀ c ∈ p, c.toLower = c) :
    litCI p (p ++ s) = some s := by
  induction p with
  | nil => rfl
  | cons c rest ih =>
    have hc := hp c (by simp)
    simp only [List.cons_append, litCI, hc, if_true]
    exact ih (fun c2 hc2 => hp c2 (by simp [hc2]))

theorem dropWhile_cons_of_neg (p : Char → Bool) (c : Char) (s : List Char) (hc : p c = false) :
    List.dropWhile p (c :: s) = c :: s := by
  simp [List.dropWhile, hc]

theorem ws1_cons_nonspace (s : List Char) (h : s.dropWhile isSpaceC = s) :
    ws1 (' ' :: s) = some s := by
  simp [ws1, isSpaceC, h]

theorem takeWhile_append_all (p : Char → Bool) (w r : List Char)
    (hw : ∀ x ∈ w, p x = true) :
    (w ++ r).takeWhile p = w ++ r.takeWhile p ∧ (w ++ r).dropWhile p = r.dropWhile p := by
  induction w with
  | nil => simp
  | cons a w2 ih =>
    have ha := hw a (by simp)
    have ih2 := ih (fun x hx => hw x (by simp [hx]))
    simp [List.takeWhile_cons, List.dropWhile_cons, ha, ih2.1, ih2.2]

theorem takeWord_template (w : List Char) (c : Char) (r : List Char)
    (hw1 : w ≠ []) (hw : ∀ x ∈ w, isWordC x = true) (hc : isWordC c = false) :
    takeWord (w ++ c :: r) = some (w, c :: r) := by
  have h := takeWhile_append_all isWordC w (c :: r) hw
  have h1 : (c :: r).takeWhile isWordC = [] := by simp [List.takeWhile_cons, hc]
  have h2 : (c :: r).dropWhile isWordC = c :: r := dropWhile_cons_of_neg _ _ _ hc
  simp [takeWord, h.1, h.2, h1, h2, hw1]

theorem takeDigits_split (dg r : List Char) (h1 : dg ≠ [])
    (hd : ∀ x ∈ dg, isDigitC x = true) (hr : r.takeWhile isDigitC = []) :
    takeDigits (dg ++ r) = some (natOfDigits dg, r.dropWhile isDigitC) := by
  have h := takeWhile_append_all isDigitC dg r hd
  simp [takeDigits, h.1, h.2, hr, h1]

theorem searchWith_head {α : Type} (m : List Char → Option α) (s : List Char) (r : α)
    (h : m s = some r) : searchWith m s = some r := by
  cases s with
  | nil => exact h
  | cons c cs => simp [searchWith, h]

theorem searchWith_append_isSome {α : Type} (m : List Char → Option α) (a b : List Char)
    (h : (m b).isSome) : (searchWith m (a ++ b)).isSome := by
  induction a with
  | nil =>
    cases b with
    | nil => simpa [searchWith] using h
    | cons c cs =>
      simp only [List.nil_append, searchWith]
      cases hm : m (c :: cs) with
      | some r => simp
      | none => rw [hm] at h; simp at h
  | cons c as ih =>
    simp only [List.cons_append, searchWith]
    cases hm : m (c :: (as ++ b)) with
    | some r => simp
    | none => exact ih

/-- The decrease pattern matched at the start of a well-formed template
`decrease resources.<x> by <dg>` followed by any text not starting with a
digit: the groups are exactly `x` and `dg`. -/
theorem matchDecreaseAt_template (x dg r : List Char)
    (hx1 : x ≠ []) (hx : ∀ c ∈ x, isWordC c = true)
    (hd1 : dg ≠ []) (hd : ∀ c ∈ dg, isDigitC c = true)
    (hr : r.takeWhile isDigitC = []) :
    matchDecreaseAt (strL "decrease resources." ++ x ++ strL " by " ++ dg ++ r)
      = some (x, natOfDigits dg) := by
  have e1 : strL "decrease resources." ++ x ++ strL " by " ++ dg ++ r
      = strL "decrease" ++ (' ' :: (strL "resources." ++ (x ++ (' ' :: (strL "by" ++ (' ' :: (dg ++ r))))))) := by
    rw [show strL "decrease resources." = strL "decrease" ++ (' ' :: strL "resources.") from rfl,
      show strL " by " = ' ' :: (strL "by" ++ [' ']) from rfl]
    simp [List.append_assoc, List.cons_append, List.singleton_append]
  rw [e1]
  unfold matchDecreaseAt
  rw [litCI_self _ _ (by decide)]
  simp only [Option.bind_eq_bind, Option.some_bind]
  have hds1 : List.dropWhile isSpaceC (strL "resources." ++ (x ++ (' ' :: (strL "by" ++ (' ' :: (dg ++ r))))))
      = strL "resources." ++ (x ++ (' ' :: (strL "by" ++ (' ' :: (dg ++ r))))) :=
    dropWhile_cons_of_neg isSpaceC 'r' _ (by decide)
  rw [ws1_cons_nonspace _ hds1]
  simp only [Option.some_bind]
  rw [litCI_self _ _ (by decide)]
  simp only [Option.some_bind]
  rw [takeWord_template _ _ _ hx1 hx (by decide)]
  simp only [Option.some_bind]
  have hds2 : List.dropWhile isSpaceC (strL "by" ++ (' ' :: (dg ++ r)))
      = strL "by" ++ (' ' :: (dg ++ r)) :=
    dropWhile_cons_of_neg isSpaceC 'b' _ (by decide)
  rw [ws1_cons_nonspace _ hds2]
  simp only [Option.some_bind]
  rw [show strL "by" ++ (' ' :: (dg ++ r)) = strL "by" ++ (' ' :: (dg ++ r)) from rfl,
    litCI_self (strL "by") (' ' :: (dg ++ r)) (by decide)]
  simp only [Option.some_bind]
  have hds3 : List.dropWhile isSpaceC (dg ++ r) = dg ++ r := by
    cases dg with
    | nil => exact absurd rfl hd1
    | cons c0 dg2 =>
      exact dropWhile_cons_of_neg isSpaceC c0 _ (not_space_of_digit (hd c0 (by simp)))
  rw [ws1_cons_nonspace _ hds3]
  simp only [Option.some_bind]
  rw [takeDigits_split dg r hd1 hd hr]
  simp only [Option.some_bind]

/-- The increase pattern matched at the start of a well-formed template
`increase resources.<x> by <dg>`. -/
theorem matchIncreaseAt_template (x dg r : List Char)
    (hx1 : x ≠ []) (hx : ∀ c ∈ x, isWordC c = true)
    (hd1 : dg ≠ []) (hd : ∀ c ∈ dg, isDigitC c = true)
    (hr : r.takeWhile isDigitC = []) :
    matchIncreaseAt (strL "increase resources." ++ x ++ strL " by " ++ dg ++ r)
      = some (x, natOfDigits dg) := by
  have e1 : strL "increase resources." ++ x ++ strL " by " ++ dg ++ r
      = strL "increase" ++ (' ' :: (strL "resources." ++ (x ++ (' ' :: (strL "by" ++ (' ' :: (dg ++ r))))))) := by
    rw [show strL "increase resources." = strL "increase" ++ (' ' :: strL "resources.") from rfl,
      show strL " by " = ' ' :: (strL "by" ++ [' ']) from rfl]
    simp [List.append_assoc, List.cons_append, List.singleton_append]
  rw [e1]
  unfold matchIncreaseAt
  rw [litCI_self _ _ (by decide)]
  simp only [Option.bind_eq_bind, Option.some_bind]
  have hds1 : List.dropWhile isSpaceC (strL "resources." ++ (x ++ (' ' :: (strL "by" ++ (' ' :: (dg ++ r))))))
      = strL "resources." ++ (x ++ (' ' :: (strL "by" ++ (' ' :: (dg ++ r))))) :=
    dropWhile_cons_of_neg isSpaceC 'r' _ (by decide)
  rw [ws1_cons_nonspace _ hds1]
  simp only [Option.some_bind]
  rw [litCI_self _ _ (by decide)]
  simp only [Option.some_bind]
  rw [takeWord_template _ _ _ hx1 hx (by decide)]
  simp only [Option.some_bind]
  have hds2 : List.dropWhile isSpaceC (strL "by" ++ (' ' :: (dg ++ r)))
      = strL "by" ++ (' ' :: (dg ++ r)) :=
    dropWhile_cons_of_neg isSpaceC 'b' _ (by decide)
  rw [ws1_cons_nonspace _ hds2]
  simp only [Option.some_bind]
  rw [litCI_self (strL "by") (' ' :: (dg ++ r)) (by decide)]
  simp only [Option.some_bind]
  have hds3 : List.dropWhile isSpaceC (dg ++ r) = dg ++ r := by
    cases dg with
    | nil => exact absurd rfl hd1
    | cons c0 dg2 =>
      exact dropWhile_cons_of_neg isSpaceC c0 _ (not_space_of_digit (hd c0 (by simp)))
  rw [ws1_cons_nonspace _ hds3]
  simp only [Option.some_bind]
  rw [takeDigits_split dg r hd1 hd hr]
  simp only [Option.some_bind]

/-! ### Failure of the decrease search on increase templates -/

theorem searchWith_eq_none {α : Type} (m : List Char → Option α) (s : List Char)
    (h : ∀ t, t <:+ s → m t = none) : searchWith m s = none := by
  induction s with
  | nil => exact h [] List.suffix_rfl
  | cons c cs ih =>
    have h0 := h (c :: cs) List.suffix_rfl
    simp only [searchWith, h0]
    exact ih (fun t ht => h t (ht.trans (List.suffix_cons c cs)))

theorem suffix_append_cases {α : Type} (t a b : List α) (h : t <:+ a ++ b) :
    t <:+ b ∨ ∃ a2, a2 <:+ a ∧ a2 ≠ [] ∧ t = a2 ++ b := by
  induction a with
  | nil => exact Or.inl (by simpa using h)
  | cons c as ih =>
    rw [List.cons_append, List.suffix_cons_iff] at h
    rcases h with h | h
    · exact Or.inr ⟨c :: as, List.suffix_rfl, by simp, by simpa using h⟩
    · rcases ih h with h2 | ⟨a2, ha1, ha2, ha3⟩
      · exact Or.inl h2
      · exact Or.inr ⟨a2, ha1.trans (List.suffix_cons c as), ha2, ha3⟩

theorem litCI_decomp (p s t : List Char) (h : litCI p s = some t) :
    ∃ u, s = u ++ t ∧ u.map Char.toLower = p := by
  induction p generalizing s with
  | nil =>
    simp only [litCI, Option.some.injEq] at h
    exact ⟨[], by simp [h], rfl⟩
  | cons pc ps ih =>
    cases s with
    | nil => simp [litCI] at h
    | cons c cs =>
      simp only [litCI] at h
      by_cases hc : c.toLower = pc
      · rw [if_pos hc] at h
        rcases ih cs h with ⟨u, hu1, hu2⟩
        exact ⟨c :: u, by simp [hu1], by simp [hu2, hc]⟩
      · rw [if_neg hc] at h
        cases h

theorem matchDecreaseAt_head_ne (c : Char) (s : List Char) (hc : ¬ (c.toLower = 'd')) :
    matchDecreaseAt (c :: s) = none := by
  have h0 : litCI (strL "decrease") (c :: s) = none := by
    show (if c.toLower = 'd' then litCI (strL "ecrease") s else none) = none
    rw [if_neg hc]
  unfold matchDecreaseAt
  rw [h0]
  rfl

theorem matchDecreaseAt_nil : matchDecreaseAt [] = none := rfl

theorem toLower_ne_d_of_digit {c : Char} (h : isDigitC c = true) : ¬ (c.toLower = 'd') := by
  have hn : 48 ≤ c.toNat ∧ c.toNat ≤ 57 := by
    simp only [isDigitC, Char.isDigit, Bool.and_eq_true, decide_eq_true_eq] at h
    exact ⟨h.1, h.2⟩
  have hself : c.toLower = c := by
    simp only [Char.toLower]
    rw [if_neg]
    omega
  rw [hself]
  intro he
  subst he
  revert hn
  decide

/-- The decrease pattern fails at a position whose text is word characters
followed by `" by <dg>"`: the literal `decrease` cannot cross the space, and
when it fits inside the word run, either more word characters follow (so
`\s+` fails) or `resources\.` meets `by` and fails. -/
theorem matchDecreaseAt_none_word_tail (x2 dg : List Char)
    (hx : ∀ c ∈ x2, isWordC c = true) :
    matchDecreaseAt (x2 ++ (' ' :: (strL "by" ++ (' ' :: dg)))) = none := by
  cases hlit : litCI (strL "decrease") (x2 ++ (' ' :: (strL "by" ++ (' ' :: dg)))) with
  | none =>
    unfold matchDecreaseAt
    rw [hlit]
    rfl
  | some t2 =>
    rcases litCI_decomp _ _ _ hlit with ⟨u, hu1, hu2⟩
    have hunsp : ∀ c ∈ u, ¬ (c = ' ') := by
      intro c hcu hce
      subst hce
      have hmem : Char.toLower ' ' ∈ strL "decrease" := hu2 ▸ List.mem_map_of_mem _ hcu
      revert hmem
      decide
    have hgood : ∀ ht2 : t2 = ' ' :: (strL "by" ++ (' ' :: dg)),
        matchDecreaseAt (x2 ++ (' ' :: (strL "by" ++ (' ' :: dg)))) = none := by
      intro ht2
      unfold matchDecreaseAt
      rw [hlit, ht2]
      simp only [Option.bind_eq_bind, Option.some_bind]
      have hdw : List.dropWhile isSpaceC (strL "by" ++ (' ' :: dg)) = strL "by" ++ (' ' :: dg) :=
        dropWhile_cons_of_neg isSpaceC 'b' ('y' :: (' ' :: dg)) (by decide)
      rw [ws1_cons_nonspace _ hdw]
      simp only [Option.some_bind]
      have hres : litCI (strL "resources.") (strL "by" ++ (' ' :: dg)) = none := by
        show (if Char.toLower 'b' = 'r' then litCI (strL "esources.") (strL "y" ++ (' ' :: dg)) else none) = none
        rw [if_neg (by decide)]
      rw [hres]
      rfl
    rcases List.append_eq_append_iff.mp hu1 with ⟨a2, hu_eq, hR⟩ | ⟨c2, hx2eq, ht2⟩
    · -- `u = x2 ++ a2` and `' ' :: … = a2 ++ t2`
      cases a2 with
      | nil =>
        simp only [List.nil_append] at hR
        exact hgood hR.symm
      | cons cc a2x =>
        exfalso
        have hcc : cc = ' ' := by
          have := hR
          simp only [List.cons_append, List.cons.injEq] at this
          exact this.1.symm
        apply hunsp cc
        · rw [hu_eq]
          simp
        · exact hcc
    · -- `x2 = u ++ c2` and `t2 = c2 ++ ' ' :: …`
      cases c2 with
      | nil =>
        simp only [List.nil_append] at ht2
        exact hgood ht2
      | cons cc c2x =>
        have hccw : isWordC cc = true := by
          apply hx
          rw [hx2eq]
          simp
        unfold matchDecreaseAt
        rw [hlit, ht2]
        simp only [Option.bind_eq_bind, Option.some_bind, List.cons_append]
        have hws : ws1 (cc :: (c2x ++ (' ' :: (strL "by" ++ (' ' :: dg))))) = none := by
          simp [ws1, not_space_of_word hccw]
        rw [hws]
        rfl

/-- On a well-formed increase template the higher-priority decrease search
finds nothing, at any start position. -/
theorem searchDecrease_none_increase (x dg : List Char)
    (hx : ∀ c ∈ x, isWordC c = true) (hd : ∀ c ∈ dg, isDigitC c = true) :
    searchDecrease (strL "increase resources." ++ x ++ strL " by " ++ dg) = none := by
  have e2 : strL "increase resources." ++ x ++ strL " by " ++ dg
      = strL "increase resources." ++ (x ++ (' ' :: (strL "by" ++ (' ' :: dg)))) := by
    rw [show strL " by " = ' ' :: (strL "by" ++ [' ']) from rfl]
    simp [List.append_assoc, List.cons_append, List.singleton_append]
  rw [e2]
  apply searchWith_eq_none
  intro t ht
  rcases suffix_append_cases t _ _ ht with h1 | ⟨a2, ha1, ha2, rfl⟩
  · rcases suffix_append_cases t _ _ h1 with h2 | ⟨x2, hx1, hx2, rfl⟩
    · rw [List.suffix_cons_iff] at h2
      rcases h2 with rfl | h2
      · exact matchDecreaseAt_head_ne _ _ (by decide)
      · rcases suffix_append_cases t _ _ h2 with h3 | ⟨b2, hb1, hb2, rfl⟩
        · rw [List.suffix_cons_iff] at h3
          rcases h3 with rfl | h3
          · exact matchDecreaseAt_head_ne _ _ (by decide)
          · cases t with
            | nil => exact matchDecreaseAt_nil
            | cons c t2 =>
              have hcd : c ∈ dg := h3.subset (by simp)
              exact matchDecreaseAt_head_ne _ _ (toLower_ne_d_of_digit (hd c hcd))
        · cases b2 with
          | nil => exact absurd rfl hb2
          | cons c b2x =>
            have hcb : c ∈ strL "by" := hb1.subset (by simp)
            have hall2 : ∀ c2 ∈ strL "by", ¬ (Char.toLower c2 = 'd') := by decide
            exact matchDecreaseAt_head_ne _ _ (hall2 c hcb)
    · exact matchDecreaseAt_none_word_tail x2 dg (fun c hc => hx c (hx1.subset hc))
  · cases a2 with
    | nil => exact absurd rfl ha2
    | cons c a2x =>
      have hca : c ∈ strL "increase resources." := ha1.subset (by simp)
      have hall : ∀ c2 ∈ strL "increase resources.", ¬ (Char.toLower c2 = 'd') := by decide
      exact matchDecreaseAt_head_ne _ _ (hall c hca)

/-! ### The interpreter on classified directives -/

theorem applyMod_of_decrease (st : Dict) (mod res : List Char) (amt : Nat)
    (h : searchDecrease mod = some (res, amt)) :
    applyMod st mod = decreaseMut st res amt := by
  unfold applyMod
  rw [h]

theorem applyMod_of_increase (st : Dict) (mod res : List Char) (amt : Nat)
    (h1 : searchDecrease mod = none) (h2 : searchIncrease mod = some (res, amt)) :
    applyMod st mod = increaseMut st res amt := by
  unfold applyMod
  rw [h1]
  dsimp only
  rw [h2]

/-! ### Turn-sequence lemmas -/

theorem update_ok_day (mods : List (List Char)) (st : Dict) (day : Nat) (st2 : Dict) (d2 : Nat)
    (h : update_game_state mods st day = UgsResult.ok st2 d2) : d2 = day + 1 := by
  unfold update_game_state at h
  dsimp only at h
  split at h
  · split at h
    · split at h
      · cases h; rfl
      · cases h; rfl
    · cases h; rfl
  · cases h; rfl
  · cases h

/-- Strictly positive (or absent) numeric food and water below a present
dict `resources` — or no `resources` at all: the depletion check is quiet. -/
def posGet : Option Val → Bool
  | none => true
  | some (Val.vInt n) => decide (0 < n)
  | some (Val.vFloat q) => decide (0 < q)
  | some _ => false

/-- The front-end's end-of-turn check neither fires on resources nor
raises. -/
def calmRes (st : Dict) : Bool :=
  match alookup st (strL "resources") with
  | none => true
  | some (Val.vDict d) => posGet (alookup d (strL "food")) && posGet (alookup d (strL "water"))
  | some _ => false

theorem leZero_of_pos (v : Option Val) (h : posGet v = true) : leZeroGet v = some false := by
  cases v with
  | none => rfl
  | some w =>
    cases w with
    | vInt n =>
      simp only [posGet, decide_eq_true_eq] at h
      simp only [leZeroGet, Option.some.injEq, decide_eq_false_iff_not]
      omega
    | vFloat q =>
      simp only [posGet, decide_eq_true_eq] at h
      simp only [leZeroGet, Option.some.injEq, decide_eq_false_iff_not]
      exact not_le.mpr h
    | vStr s => simp [posGet] at h
    | vList l => simp [posGet] at h
    | vDict d => simp [posGet] at h

theorem endCheck_calm (day : Nat) (st : Dict) (h : calmRes st = true) :
    endCheck day (alookup st (strL "resources")) = some (decide (day > 10)) := by
  unfold endCheck
  by_cases hd : day > 10
  · simp [hd]
  · rw [if_neg hd]
    unfold calmRes at h
    cases hr : alookup st (strL "resources") with
    | none => simp [hd]
    | some v =>
      rw [hr] at h
      cases v with
      | vDict d =>
        simp only [Bool.and_eq_true] at h
        dsimp only
        rw [leZero_of_pos _ h.1]
        dsimp only
        rw [leZero_of_pos _ h.2]
        simp [hd]
      | vInt n => exact absurd h (by simp)
      | vFloat q => exact absurd h (by simp)
      | vStr s => exact absurd h (by simp)
      | vList l => exact absurd h (by simp)

theorem turn_calm (mods : List (List Char)) (s : Sim) (st2 : Dict)
    (hok : update_game_state mods s.st s.day = UgsResult.ok st2 (s.day + 1))
    (hcalm : calmRes st2 = true) :
    run_simulation_turn mods s =
      { day := s.day + 1, st := st2,
        phase := if s.day + 1 > 10 then Phase.recap else s.phase } := by
  unfold run_simulation_turn
  rw [hok]
  dsimp only
  rw [endCheck_calm _ _ hcalm]
  by_cases hd : s.day + 1 > 10
  · simp [hd]
  · simp [hd]

/-- One turn is "calm": `update_game_state` returns normally and the result
keeps the depletion check quiet. -/
def okStep (s : Sim) (mods : List (List Char)) : Bool :=
  match update_game_state mods s.st s.day with
  | UgsResult.ok st2 _ => calmRes st2
  | UgsResult.raised _ _ => false

/-- Every turn of the sequence is calm, checked along the actual trace. -/
def calmAllB : Sim → List (List (List Char)) → Bool
  | _, [] => true
  | s, m :: ms => okStep s m && calmAllB (run_simulation_turn m s) ms

theorem okStep_dest (s : Sim) (mods : List (List Char)) (h : okStep s mods = true) :
    ∃ st2, update_game_state mods s.st s.day = UgsResult.ok st2 (s.day + 1) ∧
      calmRes st2 = true := by
  unfold okStep at h
  split at h
  · rename_i st2 d2 heq
    have hd := update_ok_day _ _ _ _ _ heq
    subst hd
    exact ⟨st2, heq, h⟩
  · cases h

theorem calmAllB_take (ms : List (List (List Char))) (s : Sim) (k : Nat)
    (hc : calmAllB s ms = true) : calmAllB s (ms.take k) = true := by
  induction ms generalizing s k with
  | nil => simp [calmAllB]
  | cons m ms2 ih =>
    cases k with
    | zero => rfl
    | succ k2 =>
      simp only [calmAllB, Bool.and_eq_true] at hc
      simp only [List.take_succ_cons, calmAllB, Bool.and_eq_true]
      exact ⟨hc.1, ih _ _ hc.2⟩

theorem runTurns_calm_le (ms : List (List (List Char))) (s : Sim)
    (hph : s.phase = Phase.inSimulation) (hc : calmAllB s ms = true)
    (hle : s.day + ms.length ≤ 10) :
    (runTurns s ms).phase = Phase.inSimulation ∧ (runTurns s ms).day = s.day + ms.length := by
  induction ms generalizing s with
  | nil => exact ⟨hph, by simp [runTurns]⟩
  | cons m ms2 ih =>
    simp only [calmAllB, Bool.and_eq_true] at hc
    rcases okStep_dest s m hc.1 with ⟨st2, hok, hcalm⟩
    have ht := turn_calm m s st2 hok hcalm
    have hlen : (m :: ms2).length = ms2.length + 1 := by simp
    have hd10 : ¬ (s.day + 1 > 10) := by omega
    rw [if_neg hd10] at ht
    have hstep : runTurns s (m :: ms2) = runTurns (run_simulation_turn m s) ms2 := rfl
    rw [hstep, ht]
    have hrec := ih { day := s.day + 1, st := st2, phase := s.phase }
      (by simpa using hph) (by rw [← ht]; exact hc.2) (by simp; omega)
    refine ⟨hrec.1, ?_⟩
    rw [hrec.2]
    simp
    omega

theorem runTurns_calm_recap (ms : List (List (List Char))) (s : Sim)
    (hph : s.phase = Phase.inSimulation) (hc : calmAllB s ms = true)
    (hday : s.day + ms.length = 11) (hle : s.day ≤ 10) :
    (runTurns s ms).phase = Phase.recap := by
  induction ms generalizing s with
  | nil => simp at hday; omega
  | cons m ms2 ih =>
    simp only [calmAllB, Bool.and_eq_true] at hc
    rcases okStep_dest s m hc.1 with ⟨st2, hok, hcalm⟩
    have ht := turn_calm m s st2 hok hcalm
    have hstep : runTurns s (m :: ms2) = runTurns (run_simulation_turn m s) ms2 := rfl
    by_cases hlast : s.day + 1 ≤ 10
    · have hd10 : ¬ (s.day + 1 > 10) := by omega
      rw [if_neg hd10] at ht
      rw [hstep, ht]
      refine ih { day := s.day + 1, st := st2, phase := s.phase }
        (by simpa using hph) (by rw [← ht]; exact hc.2) ?_ (by simpa using hlast)
      simp at hday ⊢
      omega
    · have h11 : s.day + 1 = 11 := by omega
      have hms2 : ms2.length = 0 := by simp at hday; omega
      have hms2e : ms2 = [] := List.length_eq_zero.mp hms2
      subst hms2e
      rw [hstep, ht]
      rw [if_pos (by omega)]
      rfl

/-! ### The status / day-bump phase of `update_game_state` -/

/-- The post-directive `status` entry is absent or a text string — the
condition under which the trailing day logic cannot raise. -/
def statusOKB (st : Dict) : Bool :=
  match alookup st (strL "status") with
  | some (Val.vStr _) => true
  | none => true
  | some _ => false

theorem update_ok_of_statusOK (mods : List (List Char)) (st : Dict) (day : Nat)
    (h : statusOKB (applyMods st mods) = true) :
    ∃ st2, update_game_state mods st day = UgsResult.ok st2 (day + 1) ∧
      (∀ s, alookup (applyMods st mods) (strL "status") = some (Val.vStr s) →
        searchDay s = some day →
        alookup st2 (strL "status")
          = some (Val.vStr (strL "Day " ++ (Nat.repr (day + 1)).data))) := by
  unfold update_game_state
  dsimp only
  cases hs : alookup (applyMods st mods) (strL "status") with
  | none =>
    refine ⟨applyMods st mods, rfl, ?_⟩
    intro s hcontra
    cases hcontra
  | some v =>
    cases v with
    | vStr s =>
      dsimp only
      cases hsd : searchDay s with
      | none =>
        dsimp only
        refine ⟨applyMods st mods, rfl, ?_⟩
        intro s2 hs2 hsd2
        cases hs2
        rw [hsd] at hsd2
        cases hsd2
      | some n =>
        dsimp only
        by_cases hn : n = day
        · rw [if_pos hn]
          refine ⟨_, rfl, ?_⟩
          intro s2 hs2 hsd2
          exact alookup_aset_self _ _ _
        · rw [if_neg hn]
          refine ⟨applyMods st mods, rfl, ?_⟩
          intro s2 hs2 hsd2
          cases hs2
          rw [hsd] at hsd2
          cases hsd2
          exact absurd rfl hn
    | vInt n =>
      unfold statusOKB at h
      rw [hs] at h
      cases h
    | vFloat q =>
      unfold statusOKB at h
      rw [hs] at h
      cases h
    | vList l =>
      unfold statusOKB at h
      rw [hs] at h
      cases h
    | vDict d =>
      unfold statusOKB at h
      rw [hs] at h
      cases h

/-! ### Key-path round trips -/

/-- Reading a dotted path: follow dict entries. -/
def readPath (d : Dict) (k : List Char) : List (List Char) → Option Val
  | [] => alookup d k
  | k2 :: rest =>
    match alookup d k with
    | some (Val.vDict d2) => readPath d2 k2 rest
    | _ => none

/-- Every walked (non-final) path segment is either absent or a dict — the
condition under which the Python walk cannot raise. -/
def walkOK (d : Dict) (k : List Char) : List (List Char) → Bool
  | [] => true
  | k2 :: rest =>
    match alookup d k with
    | none => true
    | some (Val.vDict d2) => walkOK d2 k2 rest
    | some _ => false

theorem readPath_buildNest (k : List Char) (rest : List (List Char)) (v : Val) :
    readPath (buildNest k rest v) k rest = some v := by
  induction rest generalizing k with
  | nil => simp [buildNest, readPath, alookup]
  | cons k2 rest2 ih => simp [buildNest, readPath, alookup, ih]

theorem walkSet_read (rest : List (List Char)) (d : Dict) (k : List Char) (v : Val)
    (hok : walkOK d k rest = true) :
    ∃ d2, walkSet d k rest v = some d2 ∧ readPath d2 k rest = some v := by
  induction rest generalizing d k with
  | nil => exact ⟨aset d k v, rfl, by simp [readPath, alookup_aset_self]⟩
  | cons k2 rest2 ih =>
    unfold walkOK at hok
    cases hl : alookup d k with
    | none =>
      refine ⟨aset d k (Val.vDict (buildNest k2 rest2 v)), ?_, ?_⟩
      · unfold walkSet
        rw [hl]
      · simp [readPath, alookup_aset_self, readPath_buildNest]
    | some w =>
      rw [hl] at hok
      cases w with
      | vDict d2 =>
        dsimp only at hok
        rcases ih d2 k2 hok with ⟨d2x, hw, hr⟩
        refine ⟨aset d k (Val.vDict d2x), ?_, ?_⟩
        · unfold walkSet
          rw [hl]
          dsimp only
          rw [hw]
          rfl
        · simp [readPath, alookup_aset_self, hr]
      | vInt n => dsimp only at hok; cases hok
      | vFloat q => dsimp only at hok; cases hok
      | vStr s2 => dsimp only at hok; cases hok
      | vList l => dsimp only at hok; cases hok

theorem applyMod_of_kv (st : Dict) (mod k g : List Char)
    (h1 : searchDecrease mod = none) (h2 : searchIncrease mod = none)
    (h3 : searchSetRes mod = none) (h4 : searchStatus mod = none)
    (h5 : searchFamily mod = none) (h6 : searchAdd mod = none)
    (h7 : searchKV mod = some (k, g)) :
    applyMod st mod = kvMut st k g := by
  unfold applyMod
  rw [h1]
  dsimp only
  rw [h2]
  dsimp only
  rw [h3]
  dsimp only
  rw [h4]
  dsimp only
  rw [h5]
  dsimp only
  rw [h6]
  dsimp only
  rw [h7]

/-! ### Findall (dash-item) extraction lemmas -/

theorem itemEnd_false_of_ne (c : Char) (rest : List Char) (hc : ¬ (c = '\n')) :
    itemEnd (c :: rest) = false := by
  simp [itemEnd, hc]

theorem modsScan_true_cons (acc : List Char) (c : Char) (rest : List Char) :
    modsScan true acc (c :: rest) =
      if itemEnd (c :: rest) then acc.reverse :: modsScan false [] rest
      else modsScan true (c :: acc) rest := rfl

theorem modsScan_false_skip (c : Char) (rest : List Char)
    (h : ∀ r2, ¬ (c :: rest = '-' :: ' ' :: r2)) :
    modsScan false [] (c :: rest) = modsScan false [] rest := by
  rw [modsScan.eq_def]
  split
  · rename_i hb hl2
    exact absurd hl2 (by simp)
  · rename_i r2x hb hl2
    exact absurd hl2 (h r2x)
  · rename_i hd3 rest3 hcon hb hl2
    injection hl2 with h1 h2
    subst h2
    rfl
  · rename_i hb hl2
    cases hb
  · rename_i hb hl2
    cases hb

/-- The lazy item capture runs straight through a newline-free segment. -/
theorem modsScan_capture (w : List Char) (r acc : List Char)
    (hw : ∀ c ∈ w, ¬ (c = '\n')) :
    modsScan true acc (w ++ r) = modsScan true (w.reverse ++ acc) r := by
  induction w generalizing acc with
  | nil => simp
  | cons c w2 ih =>
    have hc := hw c (by simp)
    have hie : itemEnd (c :: (w2 ++ r)) = false := itemEnd_false_of_ne _ _ hc
    rw [List.cons_append, modsScan_true_cons, hie]
    rw [if_neg (by simp)]
    rw [ih (c :: acc) (fun c2 h2 => hw c2 (by simp [h2]))]
    simp

/-- The capture mode always eventually emits an item starting with the
accumulated text. -/
theorem modsScan_emits (r : List Char) : ∀ acc : List Char,
    ∃ t, (acc.reverse ++ t) ∈ modsScan true acc r := by
  induction r with
  | nil => intro acc; exact ⟨[], by simp [modsScan]⟩
  | cons c r2 ih =>
    intro acc
    by_cases hie : itemEnd (c :: r2) = true
    · refine ⟨[], ?_⟩
      rw [modsScan_true_cons, if_pos hie]
      simp
    · rcases ih (c :: acc) with ⟨t, ht⟩
      refine ⟨c :: t, ?_⟩
      rw [modsScan_true_cons, if_neg hie]
      simpa using ht

/-- A `"- "` occurrence whose following newline-free content holds a
non-whitespace character always contributes that content to some extracted
item: either the occurrence starts an item, or it lies inside an item whose
capture swallows the content. -/
theorem modsScan_survives_nil (w r : List Char)
    (hw : ∀ c ∈ w, ¬ (c = '\n')) (hnws : ∃ c ∈ w, isSpaceC c = false) :
    (∃ m ∈ modsScan false [] ('-' :: ' ' :: (w ++ r)), ∃ c ∈ m, isSpaceC c = false) ∧
    (∀ acc, ∃ m ∈ modsScan true acc ('-' :: ' ' :: (w ++ r)), ∃ c ∈ m, isSpaceC c = false) := by
  rcases hnws with ⟨c0, hc0w, hc0⟩
  constructor
  · show ∃ m ∈ modsScan true [] (w ++ r), ∃ c ∈ m, isSpaceC c = false
    rw [modsScan_capture w r [] hw]
    rcases modsScan_emits r (w.reverse ++ []) with ⟨t, ht⟩
    refine ⟨_, ht, c0, ?_, hc0⟩
    simp [hc0w]
  · intro acc
    have h1 : itemEnd ('-' :: (' ' :: (w ++ r))) = false :=
      itemEnd_false_of_ne _ _ (by decide)
    have h2 : itemEnd (' ' :: (w ++ r)) = false :=
      itemEnd_false_of_ne _ _ (by decide)
    show ∃ m ∈ modsScan true acc ('-' :: (' ' :: (w ++ r))), ∃ c ∈ m, isSpaceC c = false
    rw [modsScan_true_cons, h1, if_neg (by simp), modsScan_true_cons, h2, if_neg (by simp)]
    rw [modsScan_capture w r (' ' :: '-' :: acc) hw]
    rcases modsScan_emits r (w.reverse ++ (' ' :: '-' :: acc)) with ⟨t, ht⟩
    refine ⟨_, ht, c0, ?_, hc0⟩
    simp [hc0w]

theorem modsScan_survives (k : Nat) : ∀ (p w r : List Char), p.length ≤ k →
    (∀ c ∈ w, ¬ (c = '\n')) → (∃ c ∈ w, isSpaceC c = false) →
    (∃ m ∈ modsScan false [] (p ++ '-' :: ' ' :: (w ++ r)), ∃ c ∈ m, isSpaceC c = false) ∧
    (∀ acc, ∃ m ∈ modsScan true acc (p ++ '-' :: ' ' :: (w ++ r)), ∃ c ∈ m, isSpaceC c = false) := by
  induction k with
  | zero =>
    intro p w r hp hw hnws
    have hp0 : p = [] := List.eq_nil_of_length_eq_zero (Nat.le_zero.mp hp)
    subst hp0
    exact modsScan_survives_nil w r hw hnws
  | succ k2 ih =>
    intro p w r hp hw hnws
    cases p with
    | nil => exact modsScan_survives_nil w r hw hnws
    | cons c p2 =>
      have hp2 : p2.length ≤ k2 := by simpa using hp
      have htrue : ∀ acc, ∃ m ∈ modsScan true acc ((c :: p2) ++ '-' :: ' ' :: (w ++ r)),
          ∃ c2 ∈ m, isSpaceC c2 = false := by
        intro acc
        rw [List.cons_append, modsScan_true_cons]
        by_cases hie : itemEnd (c :: (p2 ++ '-' :: ' ' :: (w ++ r))) = true
        · rw [if_pos hie]
          rcases (ih p2 w r hp2 hw hnws).1 with ⟨m, hm, hmc⟩
          exact ⟨m, by simp [hm], hmc⟩
        · rw [if_neg hie]
          exact (ih p2 w r hp2 hw hnws).2 (c :: acc)
      refine ⟨?_, htrue⟩
      by_cases hc : c = '-'
      · subst hc
        cases p2 with
        | nil =>
          have hskip : modsScan false [] ('-' :: ('-' :: ' ' :: (w ++ r)))
              = modsScan false [] ('-' :: ' ' :: (w ++ r)) := rfl
          rw [List.cons_append, List.nil_append, hskip]
          exact (ih [] w r (by simp) hw hnws).1
        | cons c2 p3 =>
          by_cases hc2 : c2 = ' '
          · subst hc2
            have heq : ('-' :: (' ' :: p3)) ++ '-' :: ' ' :: (w ++ r)
                = '-' :: ' ' :: (p3 ++ '-' :: ' ' :: (w ++ r)) := by simp
            rw [heq]
            show ∃ m ∈ modsScan true [] (p3 ++ '-' :: ' ' :: (w ++ r)),
              ∃ c2 ∈ m, isSpaceC c2 = false
            exact (ih p3 w r (by simp at hp2 ⊢; omega) hw hnws).2 []
          · have hskip := modsScan_false_skip '-' ((c2 :: p3) ++ '-' :: ' ' :: (w ++ r))
              (by intro r2 hh; simp only [List.cons_append, List.cons.injEq] at hh; exact hc2 hh.2.1)
            rw [List.cons_append, hskip]
            exact (ih (c2 :: p3) w r hp2 hw hnws).1
      · have hskip := modsScan_false_skip c (p2 ++ '-' :: ' ' :: (w ++ r))
          (by intro r2 hh; simp only [List.cons.injEq] at hh; exact hc hh.1)
        rw [List.cons_append, hskip]
        exact (ih p2 w r hp2 hw hnws).1

/-! ### Claim theorems -/

/-- Claim C2 (amended): for every session state whose `resources` integer
entries are all non-negative and every directive, applying the directive
interpreter (`update_game_state` on a one-element modification list) yields
a state in which every integer entry of the `resources` mapping is still
non-negative.  (As stated the claim is false: the generic key-path fallback
can store non-integer values such as the string `"-5"` under `resources` —
see the counterexample — but no directive can ever store a negative
integer.) -/
theorem claim_C2 (st : Dict) (mod : List Char) (day : Nat)
    (h : resOK st = true) :
    resOK (update_game_state [mod] st day).state = true :=
  resOK_update_game_state [mod] st day h

/-- Claim C2, counterexample to the claim as stated: from
`{resources: {food: 3}}` (all entries non-negative integers) the directive
`set resources.food to -5` — handled by the generic key-path fallback —
leaves `resources.food` bound to the *string* `"-5"`, which is not a
non-negative integer. -/
theorem claim_C2_cx :
    (update_game_state [strL "set resources.food to -5"]
        [(strL "resources", Val.vDict [(strL "food", Val.vInt 3)])] 1).state
      = [(strL "resources", Val.vDict [(strL "food", Val.vStr (strL "-5"))])] := rfl

/-- Claim C2, witness: the amended theorem applied at a concrete state and
directive. -/
theorem claim_C2_witness :
    resOK (update_game_state [strL "decrease resources.food by 5"]
      [(strL "resources", Val.vDict [(strL "food", Val.vInt 3)])] 1).state = true :=
  claim_C2 [(strL "resources", Val.vDict [(strL "food", Val.vInt 3)])]
    (strL "decrease resources.food by 5") 1 rfl

/-- Claim C4 (amended): whenever the `status` entry after directive
application is absent or a text string, one `update_game_state` call
increments the tracked day counter by exactly one, and a post-application
status matching `Day <N>` with `N` equal to the pre-increment counter is
rewritten to `Day <N+1>`.  (As stated the claim is false: a directive such
as `set status to 5` makes the post-application status a non-string, the
trailing `re.search` raises `TypeError`, and the counter is not
incremented — see the counterexample.) -/
theorem claim_C4 (mods : List (List Char)) (st : Dict) (day : Nat)
    (h : statusOKB (applyMods st mods) = true) :
    (update_game_state mods st day).day = day + 1 ∧
    (∀ s, alookup (applyMods st mods) (strL "status") = some (Val.vStr s) →
      searchDay s = some day →
      alookup (update_game_state mods st day).state (strL "status")
        = some (Val.vStr (strL "Day " ++ (Nat.repr (day + 1)).data))) := by
  rcases update_ok_of_statusOK mods st day h with ⟨st2, h1, h2⟩
  constructor
  · rw [h1]
    rfl
  · intro s hs hsd
    rw [h1]
    exact h2 s hs hsd

/-- Claim C4, counterexample to the claim as stated: on
`{status: "Day 1"}` with tracked day `1`, the single directive
`set status to 5` (generic fallback) sets `status` to the integer `5`; the
trailing `re.search(r"Day (\d+)", status)` then raises `TypeError`, so the
call ends with the state mutated and the day counter still `1` — not
incremented. -/
theorem claim_C4_cx :
    update_game_state [strL "set status to 5"]
        [(strL "status", Val.vStr (strL "Day 1"))] 1
      = UgsResult.raised [(strL "status", Val.vInt 5)] 1 := rfl

/-- Claim C4, witness: the amended theorem applied at a concrete state with
no directives — the day counter goes from 4 to 5 and `status` is bumped
from `Day 4` to `Day 5`. -/
theorem claim_C4_witness :
    (update_game_state [] [(strL "status", Val.vStr (strL "Day 4"))] 4).day = 5 ∧
    alookup (update_game_state [] [(strL "status", Val.vStr (strL "Day 4"))] 4).state
        (strL "status") = some (Val.vStr (strL "Day " ++ (Nat.repr 5).data)) := by
  have h := claim_C4 [] [(strL "status", Val.vStr (strL "Day 4"))] 4 rfl
  exact ⟨h.1, h.2 (strL "Day 4") rfl rfl⟩

/-- Claim C9 (amended): the completion client collapses transport errors,
HTTP statuses 400–599 (exactly the statuses `raise_for_status` raises on)
and non-JSON bodies into `None`; but a JSON body *missing the expected
fields* on a status `raise_for_status` lets through — any status below 400
or at 600 and above — is not collapsed to `None`: the chained `.get`
defaults produce the plain empty string (while an explicitly empty
`choices` list raises `IndexError`, giving `None`).  Absence of text is
therefore *not* distinct from empty text for malformed non-raising
bodies. -/
theorem claim_C9 :
    (get_mistral_response ApiOutcome.transportError = none) ∧
    (∀ code body, 400 ≤ code → code ≤ 599 →
      get_mistral_response (ApiOutcome.httpResponse code body) = none) ∧
    (∀ code, code < 400 ∨ 600 ≤ code →
      get_mistral_response (ApiOutcome.httpResponse code none) = none) ∧
    (get_mistral_response (ApiOutcome.httpResponse 200 (some (Val.vDict [])))
      = some (Val.vStr [])) ∧
    (get_mistral_response (ApiOutcome.httpResponse 600 (some (Val.vDict [])))
      = some (Val.vStr [])) ∧
    (get_mistral_response (ApiOutcome.httpResponse 200
        (some (Val.vDict [(strL "choices", Val.vList [])]))) = none) := by
  refine ⟨rfl, ?_, ?_, rfl, rfl, rfl⟩
  · intro code body hc1 hc2
    unfold get_mistral_response
    dsimp only
    rw [if_pos ?_]
    show raisesForStatus code = true
    simp only [raisesForStatus, Bool.and_eq_true, decide_eq_true_eq]
    omega
  · intro code hc
    unfold get_mistral_response
    dsimp only
    rw [if_neg ?_]
    show ¬ (raisesForStatus code = true)
    simp only [raisesForStatus, Bool.and_eq_true, decide_eq_true_eq]
    omega

/-- Claim C9, counterexample to the claim as stated: a 200 response whose
JSON body is `{}` (missing every expected field) yields the plain empty
string, not `None` — and a non-2xx status of 600, which `raise_for_status`
does not raise on, does the same — so the "no response" outcome and empty
text coincide. -/
theorem claim_C9_cx :
    get_mistral_response (ApiOutcome.httpResponse 200 (some (Val.vDict [])))
      = some (Val.vStr []) ∧
    get_mistral_response (ApiOutcome.httpResponse 600 (some (Val.vDict [])))
      = some (Val.vStr []) ∧
    some (Val.vStr ([] : List Char)) ≠ none := by
  exact ⟨rfl, rfl, by simp⟩

/-- Claim C9, witness: the amended theorem applied at concrete outcomes —
a raising status with a body, a success status with no JSON body, and a
status of 600 with no JSON body. -/
theorem claim_C9_witness :
    get_mistral_response (ApiOutcome.httpResponse 500 (some (Val.vDict []))) = none ∧
    get_mistral_response (ApiOutcome.httpResponse 200 none) = none ∧
    get_mistral_response (ApiOutcome.httpResponse 600 none) = none := by
  have h := claim_C9
  exact ⟨h.2.1 500 (some (Val.vDict [])) (by decide) (by decide),
    h.2.2.1 200 (Or.inl (by decide)), h.2.2.1 600 (Or.inr (by decide))⟩

theorem jsonModifications_elems (s : List Char) :
    ∀ m ∈ jsonModifications s, m ≠ [] ∧ pyStrip m = m := by
  intro m hm
  unfold jsonModifications at hm
  rw [List.mem_filter] at hm
  rcases hm with ⟨hmap, hne⟩
  rw [List.mem_map] at hmap
  rcases hmap with ⟨m0, _, rfl⟩
  refine ⟨?_, pyStrip_idem m0⟩
  simpa using hne

/-- Claim C5 (amended): when `JSON_MODIFICATIONS:` precedes
`NEXT_SITUATION_DESCRIPTION:` (reversed order) *and* only whitespace
follows the `NEXT_SITUATION_DESCRIPTION:` marker, the parser returns an
empty narrative; it never raises (the parsing functions here are total
Lean functions mirroring regex calls that cannot throw).  (As stated the
claim is false: the narrative search is not anchored, so with reversed
markers it still captures whatever trails the narrative marker — see the
counterexample, where the narrative is `"hello"`.) -/
theorem claim_C5 (s t : List Char) (i j : Nat)
    (hj : markerPos (strL "JSON_MODIFICATIONS:") s = some i)
    (hn : markerPos (strL "NEXT_SITUATION_DESCRIPTION:") s = some j)
    (horder : i < j)
    (ht : afterMarker (strL "NEXT_SITUATION_DESCRIPTION:") s = some t)
    (hws : t.all isSpaceC = true) :
    (process_user_decision s).1 = [] := by
  show nextSituation s = []
  unfold nextSituation
  rw [ht]
  dsimp only
  have h1 : t.dropWhile isSpaceC = [] := by
    rw [List.dropWhile_eq_nil_iff]
    intro x hx
    rw [List.all_eq_true] at hws
    simpa using hws x hx
  rw [h1]
  rfl

/-- Claim C5, counterexample to the claim as stated: with the markers in
reversed order and text after `NEXT_SITUATION_DESCRIPTION:`, the narrative
is that trailing text (`"hello"`), not the empty string. -/
theorem claim_C5_cx :
    markerPos (strL "JSON_MODIFICATIONS:")
        (strL "JSON_MODIFICATIONS:\n- x\nNEXT_SITUATION_DESCRIPTION: hello") = some 0 ∧
    markerPos (strL "NEXT_SITUATION_DESCRIPTION:")
        (strL "JSON_MODIFICATIONS:\n- x\nNEXT_SITUATION_DESCRIPTION: hello") = some 24 ∧
    (process_user_decision
        (strL "JSON_MODIFICATIONS:\n- x\nNEXT_SITUATION_DESCRIPTION: hello")).1
      = strL "hello" ∧
    strL "hello" ≠ [] := by
  refine ⟨rfl, rfl, rfl, by decide⟩

/-- Claim C5, witness: the amended theorem applied at a concrete reversed
input whose narrative marker is followed only by whitespace. -/
theorem claim_C5_witness :
    (process_user_decision
        (strL "JSON_MODIFICATIONS:\n- x\nNEXT_SITUATION_DESCRIPTION: \n")).1 = [] := by
  exact claim_C5 (strL "JSON_MODIFICATIONS:\n- x\nNEXT_SITUATION_DESCRIPTION: \n")
    (strL " \n") 0 24 rfl rfl (by decide) rfl (by decide)

/-- Claim C6 (amended): with both markers in documented order, whenever the
extracted modifications block contains a `"- "` (dash-space) occurrence
whose following newline-free content has at least one non-whitespace
character, the parser returns a non-empty directive list whose every
element is a non-empty string equal to its own trim.  (As stated the claim
is false: a dash-prefixed line with no content after the dash — or with a
dash but no space — produces an *empty* directive list, because empty
items are stripped away and the findall pattern requires a dash *and* a
space; see the counterexample.) -/
theorem claim_C6 (s : List Char) (i j : Nat) (p w r : List Char)
    (hn : markerPos (strL "NEXT_SITUATION_DESCRIPTION:") s = some i)
    (hj : markerPos (strL "JSON_MODIFICATIONS:") s = some j)
    (horder : i < j)
    (hblock : jsonModsText s = p ++ '-' :: ' ' :: (w ++ r))
    (hwn : ∀ c ∈ w, ¬ (c = '\n'))
    (hnws : ∃ c ∈ w, isSpaceC c = false) :
    jsonModifications s ≠ [] ∧ ∀ m ∈ jsonModifications s, m ≠ [] ∧ pyStrip m = m := by
  refine ⟨?_, jsonModifications_elems s⟩
  rcases (modsScan_survives p.length p w r le_rfl hwn hnws).1 with ⟨m, hm, c, hcm, hc⟩
  have hstrip : pyStrip m ≠ [] := pyStrip_ne_nil m c hcm hc
  have hmem : pyStrip m ∈ jsonModifications s := by
    unfold jsonModifications
    rw [hblock]
    rw [List.mem_filter]
    exact ⟨List.mem_map_of_mem _ hm, by simpa using hstrip⟩
  exact List.ne_nil_of_mem hmem

/-- Claim C6, counterexample to the claim as stated: the text ends with the
dash-prefixed line `"- "` right after `JSON_MODIFICATIONS:` (markers in
documented order), yet the directive list is empty — the item's content is
empty and is filtered out. -/
theorem claim_C6_cx :
    markerPos (strL "NEXT_SITUATION_DESCRIPTION:")
        (strL "NEXT_SITUATION_DESCRIPTION: d\nJSON_MODIFICATIONS:\n- \n") = some 0 ∧
    markerPos (strL "JSON_MODIFICATIONS:")
        (strL "NEXT_SITUATION_DESCRIPTION: d\nJSON_MODIFICATIONS:\n- \n") = some 30 ∧
    afterMarker (strL "JSON_MODIFICATIONS:")
        (strL "NEXT_SITUATION_DESCRIPTION: d\nJSON_MODIFICATIONS:\n- \n")
      = some (strL "\n- \n") ∧
    jsonModifications (strL "NEXT_SITUATION_DESCRIPTION: d\nJSON_MODIFICATIONS:\n- \n")
      = [] := by
  refine ⟨rfl, rfl, rfl, rfl⟩

/-- Claim C6, witness: the amended theorem applied at a concrete response
with one contentful dash item. -/
theorem claim_C6_witness :
    jsonModifications
        (strL "NEXT_SITUATION_DESCRIPTION: ok\nJSON_MODIFICATIONS:\n- decrease resources.food by 1\n")
      ≠ [] ∧
    (strL "decrease resources.food by 1" ≠ [] ∧
      pyStrip (strL "decrease resources.food by 1") = strL "decrease resources.food by 1") := by
  have h := claim_C6
    (strL "NEXT_SITUATION_DESCRIPTION: ok\nJSON_MODIFICATIONS:\n- decrease resources.food by 1\n")
    0 31 [] (strL "decrease resources.food by 1") []
    rfl rfl (by decide) rfl (by decide) (by decide)
  refine ⟨h.1, h.2 _ ?_⟩
  exact List.mem_singleton.mpr rfl

/-- Claim C7 (amended): for every state in which the existing values along
the walked path prefixes `a` and `a.b` (when present) are mappings,
applying `set a.b.c to 5` / `5.5` / `hello` and reading `a.b.c` yields the
integer `5` / the float `5.5` / the string `"hello"`, intermediate mappings
being created when absent.  (As stated — "for any state" — the claim is
false: when `a` holds a non-mapping such as the integer `0`, the Python
walk raises, the per-directive handler swallows the error and the state is
unchanged, so the read yields nothing; see the counterexample.) -/
theorem claim_C7 (st : Dict)
    (h : walkOK st (strL "a") [strL "b", strL "c"] = true) :
    readPath (applyMod st (strL "set a.b.c to 5")) (strL "a") [strL "b", strL "c"]
        = some (Val.vInt 5) ∧
    readPath (applyMod st (strL "set a.b.c to 5.5")) (strL "a") [strL "b", strL "c"]
        = some (Val.vFloat (mkRat 11 2)) ∧
    readPath (applyMod st (strL "set a.b.c to hello")) (strL "a") [strL "b", strL "c"]
        = some (Val.vStr (strL "hello")) := by
  refine ⟨?_, ?_, ?_⟩
  · rw [applyMod_of_kv st (strL "set a.b.c to 5") (strL "a.b.c") (strL "5")
      rfl rfl rfl rfl rfl rfl rfl]
    unfold kvMut
    rw [show splitDot (strL "a.b.c") = [strL "a", strL "b", strL "c"] from rfl]
    dsimp only
    rcases walkSet_read [strL "b", strL "c"] st (strL "a") (coerceVal (strL "5")) h
      with ⟨d2, hw, hr⟩
    rw [hw]
    exact hr
  · rw [applyMod_of_kv st (strL "set a.b.c to 5.5") (strL "a.b.c") (strL "5.5")
      rfl rfl rfl rfl rfl rfl rfl]
    unfold kvMut
    rw [show splitDot (strL "a.b.c") = [strL "a", strL "b", strL "c"] from rfl]
    dsimp only
    rcases walkSet_read [strL "b", strL "c"] st (strL "a") (coerceVal (strL "5.5")) h
      with ⟨d2, hw, hr⟩
    rw [hw]
    rw [show coerceVal (strL "5.5") = Val.vFloat (mkRat 11 2) from rfl] at hr
    exact hr
  · rw [applyMod_of_kv st (strL "set a.b.c to hello") (strL "a.b.c") (strL "hello")
      rfl rfl rfl rfl rfl rfl rfl]
    unfold kvMut
    rw [show splitDot (strL "a.b.c") = [strL "a", strL "b", strL "c"] from rfl]
    dsimp only
    rcases walkSet_read [strL "b", strL "c"] st (strL "a") (coerceVal (strL "hello")) h
      with ⟨d2, hw, hr⟩
    rw [hw]
    exact hr

/-- Claim C7, counterexample to the claim as stated: on the state
`{a: 0}` the directive `set a.b.c to 5` matches the generic fallback but
the walk hits the integer `0` at `a`, raises, and is swallowed: the state
is unchanged and `a.b.c` reads back nothing, not `5`. -/
theorem claim_C7_cx :
    applyMod [(strL "a", Val.vInt 0)] (strL "set a.b.c to 5") = [(strL "a", Val.vInt 0)] ∧
    readPath (applyMod [(strL "a", Val.vInt 0)] (strL "set a.b.c to 5"))
        (strL "a") [strL "b", strL "c"] = none := ⟨rfl, rfl⟩

/-- Claim C7, witness: the amended theorem applied to the empty state — all
intermediate mappings are created. -/
theorem claim_C7_witness :
    readPath (applyMod [] (strL "set a.b.c to 5")) (strL "a") [strL "b", strL "c"]
        = some (Val.vInt 5) ∧
    readPath (applyMod [] (strL "set a.b.c to 5.5")) (strL "a") [strL "b", strL "c"]
        = some (Val.vFloat (mkRat 11 2)) ∧
    readPath (applyMod [] (strL "set a.b.c to hello")) (strL "a") [strL "b", strL "c"]
        = some (Val.vStr (strL "hello")) :=
  claim_C7 [] rfl

/-- Claim C1 (confirmed): `decrease resources.<X> by <N>` on a state whose
`resources` mapping holds `X` with a non-negative integer value floors at
zero (`max 0 (v - N)`), and with a non-existing key `Y` it leaves the state
entirely unchanged — no key is created.  `X`, `Y` range over the
word-character names the data model uses for resources, `N ≥ 0` over its
decimal digits. -/
theorem claim_C1 (st d : Dict) (x dg y : List Char) (v : Int)
    (hx1 : x ≠ []) (hx : ∀ c ∈ x, isWordC c = true)
    (hy1 : y ≠ []) (hy : ∀ c ∈ y, isWordC c = true)
    (hd1 : dg ≠ []) (hdg : ∀ c ∈ dg, isDigitC c = true)
    (hres : alookup st (strL "resources") = some (Val.vDict d)) :
    (alookup d x = some (Val.vInt v) → 0 ≤ v →
      applyMod st (strL "decrease resources." ++ x ++ strL " by " ++ dg)
        = aset st (strL "resources")
            (Val.vDict (aset d x (Val.vInt (max 0 (v - (natOfDigits dg : Int))))))) ∧
    (alookup d y = none →
      applyMod st (strL "decrease resources." ++ y ++ strL " by " ++ dg) = st) := by
  constructor
  · intro hlk hv
    have hm := matchDecreaseAt_template x dg [] hx1 hx hd1 hdg rfl
    rw [List.append_nil] at hm
    rw [applyMod_of_decrease st _ x (natOfDigits dg) (searchWith_head _ _ _ hm)]
    unfold decreaseMut
    rw [hres]
    dsimp only
    rw [hlk]
  · intro hlk
    have hm := matchDecreaseAt_template y dg [] hy1 hy hd1 hdg rfl
    rw [List.append_nil] at hm
    rw [applyMod_of_decrease st _ y (natOfDigits dg) (searchWith_head _ _ _ hm)]
    unfold decreaseMut
    rw [hres]
    dsimp only
    rw [hlk]

/-- Claim C1, witness: the spec's own scenario —
`{resources: {food: 10, water: 10}}`, directive
`decrease resources.water by 15` floors water at `0`; and
`decrease resources.fuel by 15` (no `fuel` key) changes nothing. -/
theorem claim_C1_witness :
    applyMod [(strL "resources", Val.vDict [(strL "food", Val.vInt 10), (strL "water", Val.vInt 10)])]
        (strL "decrease resources." ++ strL "water" ++ strL " by " ++ strL "15")
      = aset [(strL "resources", Val.vDict [(strL "food", Val.vInt 10), (strL "water", Val.vInt 10)])]
          (strL "resources")
          (Val.vDict (aset [(strL "food", Val.vInt 10), (strL "water", Val.vInt 10)]
            (strL "water") (Val.vInt (max 0 (10 - (natOfDigits (strL "15") : Int)))))) ∧
    applyMod [(strL "resources", Val.vDict [(strL "food", Val.vInt 10), (strL "water", Val.vInt 10)])]
        (strL "decrease resources." ++ strL "fuel" ++ strL " by " ++ strL "15")
      = [(strL "resources", Val.vDict [(strL "food", Val.vInt 10), (strL "water", Val.vInt 10)])] := by
  have h := claim_C1
    [(strL "resources", Val.vDict [(strL "food", Val.vInt 10), (strL "water", Val.vInt 10)])]
    [(strL "food", Val.vInt 10), (strL "water", Val.vInt 10)]
    (strL "water") (strL "15") (strL "fuel") 10
    (by decide) (by decide) (by decide) (by decide) (by decide) (by decide) rfl
  exact ⟨h.1 rfl (by decide), h.2 rfl⟩

/-- Claim C8 (amended): `increase resources.<X> by <N>` on a state whose
`resources` mapping exists adds `N` to an existing integer key and creates
an absent key with value `N`; but on a state with no `resources` mapping at
all — which the claim as stated includes — the handler's subscript raises
`KeyError`, the per-directive `except` swallows it, and the state is
entirely unchanged: no `resources` mapping and no key is created (see the
counterexample).  `X`, `Y` range over word-character names, `N ≥ 0` over
decimal digits. -/
theorem claim_C8 (st d : Dict) (x dg y : List Char) (v : Int)
    (hx1 : x ≠ []) (hx : ∀ c ∈ x, isWordC c = true)
    (hy1 : y ≠ []) (hy : ∀ c ∈ y, isWordC c = true)
    (hd1 : dg ≠ []) (hdg : ∀ c ∈ dg, isDigitC c = true) :
    (alookup st (strL "resources") = some (Val.vDict d) →
      (alookup d x = some (Val.vInt v) →
        applyMod st (strL "increase resources." ++ x ++ strL " by " ++ dg)
          = aset st (strL "resources")
              (Val.vDict (aset d x (Val.vInt (v + (natOfDigits dg : Int)))))) ∧
      (alookup d y = none →
        applyMod st (strL "increase resources." ++ y ++ strL " by " ++ dg)
          = aset st (strL "resources")
              (Val.vDict (aset d y (Val.vInt (natOfDigits dg)))))) ∧
    (alookup st (strL "resources") = none →
      applyMod st (strL "increase resources." ++ x ++ strL " by " ++ dg) = st) := by
  have hmx := matchIncreaseAt_template x dg [] hx1 hx hd1 hdg rfl
  rw [List.append_nil] at hmx
  have hax := applyMod_of_increase st (strL "increase resources." ++ x ++ strL " by " ++ dg)
    x (natOfDigits dg) (searchDecrease_none_increase x dg hx hdg) (searchWith_head _ _ _ hmx)
  refine ⟨fun hres => ⟨?_, ?_⟩, fun hres => ?_⟩
  · intro hlk
    rw [hax]
    unfold increaseMut
    rw [hres]
    dsimp only
    rw [hlk]
  · intro hlk
    have hmy := matchIncreaseAt_template y dg [] hy1 hy hd1 hdg rfl
    rw [List.append_nil] at hmy
    rw [applyMod_of_increase st (strL "increase resources." ++ y ++ strL " by " ++ dg)
      y (natOfDigits dg) (searchDecrease_none_increase y dg hy hdg) (searchWith_head _ _ _ hmy)]
    unfold increaseMut
    rw [hres]
    dsimp only
    rw [hlk]
  · rw [hax]
    unfold increaseMut
    rw [hres]

/-- Claim C8, counterexample to the claim as stated: on the empty state —
no `resources` mapping — `increase resources.food by 3` changes nothing:
no key is created, because the Python handler raises `KeyError` before
assigning and the error is swallowed. -/
theorem claim_C8_cx :
    applyMod [] (strL "increase resources.food by 3") = [] ∧
    alookup (applyMod [] (strL "increase resources.food by 3")) (strL "resources")
      = none := ⟨rfl, rfl⟩

/-- Claim C8, witness: the amended theorem at `{resources: {food: 2}}` —
`increase resources.food by 3` adds onto the existing key,
`increase resources.water by 3` creates the absent key with value 3 —
and at the empty state, where the directive leaves it unchanged. -/
theorem claim_C8_witness :
    applyMod [(strL "resources", Val.vDict [(strL "food", Val.vInt 2)])]
        (strL "increase resources." ++ strL "food" ++ strL " by " ++ strL "3")
      = aset [(strL "resources", Val.vDict [(strL "food", Val.vInt 2)])] (strL "resources")
          (Val.vDict (aset [(strL "food", Val.vInt 2)] (strL "food")
            (Val.vInt (2 + (natOfDigits (strL "3") : Int))))) ∧
    applyMod [(strL "resources", Val.vDict [(strL "food", Val.vInt 2)])]
        (strL "increase resources." ++ strL "water" ++ strL " by " ++ strL "3")
      = aset [(strL "resources", Val.vDict [(strL "food", Val.vInt 2)])] (strL "resources")
          (Val.vDict (aset [(strL "food", Val.vInt 2)] (strL "water")
            (Val.vInt (natOfDigits (strL "3"))))) ∧
    applyMod [] (strL "increase resources." ++ strL "food" ++ strL " by " ++ strL "3")
      = [] := by
  have h1 := claim_C8 [(strL "resources", Val.vDict [(strL "food", Val.vInt 2)])]
    [(strL "food", Val.vInt 2)] (strL "food") (strL "3") (strL "water") 2
    (by decide) (by decide) (by decide) (by decide) (by decide) (by decide)
  have h2 := claim_C8 [] [] (strL "food") (strL "3") (strL "water") 0
    (by decide) (by decide) (by decide) (by decide) (by decide) (by decide)
  exact ⟨(h1.1 rfl).1 rfl, (h1.1 rfl).2 rfl, h2.2 rfl⟩

theorem searchWith_skip {α : Type} (m : List Char → Option α) (p b : List Char)
    (h : ∀ c t, c ∈ p → m (c :: t) = none) :
    searchWith m (p ++ b) = searchWith m b := by
  induction p with
  | nil => rfl
  | cons c cs ih =>
    show searchWith m (c :: (cs ++ b)) = searchWith m b
    have hm : m (c :: (cs ++ b)) = none := h c _ (List.mem_cons_self c cs)
    simp only [searchWith, hm]
    exact ih (fun c2 t hc => h c2 t (List.mem_cons_of_mem c hc))

/-- Claim C10 (amended): the interpreter classifies by `re.search`, which
matches anywhere in the directive string — for the decrease pattern (first
in the precedence cascade), any prefix of unrelated text free of the
letter `d`/`D` (so the pattern occurrence is the leftmost match) and any
suffix not starting with a digit, a directive merely containing
`decrease resources.<X> by <N>` as a substring still takes the decrease
branch and decreases exactly resource `X` by `N`.  But the claim is false
for the `$`-anchored patterns: a directive containing the status pattern
occurrence `update status to safe` followed by `\nmore text` matches no
pattern at all — the lazy capture cannot cross the newline without
`DOTALL` and `$` is not reached — so the interpreter performs no mutation
(see the counterexample). -/
theorem claim_C10 (st : Dict) (p sfx x dg : List Char)
    (hp : ∀ c ∈ p, ¬ (c.toLower = 'd'))
    (hx1 : x ≠ []) (hx : ∀ c ∈ x, isWordC c = true)
    (hd1 : dg ≠ []) (hdg : ∀ c ∈ dg, isDigitC c = true)
    (hsfx : sfx.takeWhile isDigitC = []) :
    (searchDecrease
        (p ++ (strL "decrease resources." ++ x ++ strL " by " ++ dg ++ sfx))
        = some (x, natOfDigits dg) ∧
      applyMod st (p ++ (strL "decrease resources." ++ x ++ strL " by " ++ dg ++ sfx))
        = decreaseMut st x (natOfDigits dg)) ∧
    applyMod st (strL "update status to safe\nmore text") = st := by
  have hm := matchDecreaseAt_template x dg sfx hx1 hx hd1 hdg hsfx
  have hskip : searchDecrease
      (p ++ (strL "decrease resources." ++ x ++ strL " by " ++ dg ++ sfx))
      = searchDecrease (strL "decrease resources." ++ x ++ strL " by " ++ dg ++ sfx) :=
    searchWith_skip matchDecreaseAt p _
      (fun c t hc => matchDecreaseAt_head_ne c t (hp c hc))
  have hsearch : searchDecrease
      (p ++ (strL "decrease resources." ++ x ++ strL " by " ++ dg ++ sfx))
      = some (x, natOfDigits dg) := by
    rw [hskip]
    exact searchWith_head _ _ _ hm
  exact ⟨⟨hsearch, applyMod_of_decrease st _ x (natOfDigits dg) hsearch⟩, rfl⟩

/-- Claim C10, counterexample to the claim as stated: `update status to
safe` is a recognized pattern occurrence (the status pattern matches it in
full), yet the directive `update status to safe\nmore text`, which merely
contains it amid unrelated text, matches no pattern — the status search
fails because `(.*?)` cannot cross the newline and `$` is never reached —
and the interpreter performs no mutation at all. -/
theorem claim_C10_cx :
    searchStatus (strL "update status to safe") = some (strL "safe") ∧
    searchStatus (strL "update status to safe\nmore text") = none ∧
    applyMod [(strL "status", Val.vStr (strL "ok"))]
        (strL "update status to safe\nmore text")
      = [(strL "status", Val.vStr (strL "ok"))] := ⟨rfl, rfl, rfl⟩

/-- Claim C10, witness: the claim's own example sentence
`first we decrease resources.food by 2, then rest` — pattern buried in
surrounding text — still decreases `food` by `2`, while the newline-split
status directive leaves the same state unchanged. -/
theorem claim_C10_witness :
    (searchDecrease (strL "first we " ++ (strL "decrease resources." ++ strL "food"
          ++ strL " by " ++ strL "2" ++ strL ", then rest"))
        = some (strL "food", natOfDigits (strL "2")) ∧
      applyMod [(strL "resources", Val.vDict [(strL "food", Val.vInt 5)])]
          (strL "first we " ++ (strL "decrease resources." ++ strL "food"
            ++ strL " by " ++ strL "2" ++ strL ", then rest"))
        = decreaseMut [(strL "resources", Val.vDict [(strL "food", Val.vInt 5)])]
            (strL "food") (natOfDigits (strL "2"))) ∧
    applyMod [(strL "resources", Val.vDict [(strL "food", Val.vInt 5)])]
        (strL "update status to safe\nmore text")
      = [(strL "resources", Val.vDict [(strL "food", Val.vInt 5)])] :=
  claim_C10 [(strL "resources", Val.vDict [(strL "food", Val.vInt 5)])]
    (strL "first we ") (strL ", then rest") (strL "food") (strL "2")
    (by decide) (by decide) (by decide) (by decide) (by decide) rfl

/-- Claim C3 (amended): from a fresh scenario (day counter 1, phase
`in_simulation`), if ten consecutive turns all apply normally and never
deplete `food`/`water` (the calm condition), the phase transitions to
`recap` exactly after the TENTH applied turn — after that turn the day
counter has become 11, and 11 > 10 fires the check — and after any earlier
prefix of at most nine turns the phase is still `in_simulation`.  (The
claim's "after the 11th applied turn" is off by one: the check compares
the already-incremented counter to 10, so the tenth turn, not the
eleventh, triggers the recap; see the counterexample.) -/
theorem claim_C3 (s0 : Sim) (msl : List (List (List Char)))
    (hph : s0.phase = Phase.inSimulation) (hday : s0.day = 1)
    (hlen : msl.length = 10) (hcalm : calmAllB s0 msl = true) :
    (runTurns s0 msl).phase = Phase.recap ∧
    ∀ k, k ≤ 9 → (runTurns s0 (msl.take k)).phase = Phase.inSimulation := by
  constructor
  · exact runTurns_calm_recap msl s0 hph hcalm (by omega) (by omega)
  · intro k hk
    have hc := calmAllB_take msl s0 k hcalm
    exact (runTurns_calm_le (msl.take k) s0 hph hc
      (by rw [List.length_take, hlen, hday]; omega)).1

/-- Claim C3, counterexample to the claim as stated: from day 1 with a
benign state (`{status: "Day 1"}`, no resources to deplete), ten empty
turns already put the phase at `recap` — there is no eleventh applied turn
to wait for — while after nine turns it is still `in_simulation`. -/
theorem claim_C3_cx :
    (runTurns ⟨1, [(strL "status", Val.vStr (strL "Day 1"))], Phase.inSimulation⟩
        (List.replicate 10 [])).phase = Phase.recap ∧
    (runTurns ⟨1, [(strL "status", Val.vStr (strL "Day 1"))], Phase.inSimulation⟩
        (List.replicate 9 [])).phase = Phase.inSimulation := ⟨rfl, rfl⟩

/-- Claim C3, witness: the amended theorem applied to the benign day-1
state and ten empty turns, with the nine-turn prefix instantiated. -/
theorem claim_C3_witness :
    (runTurns ⟨1, [(strL "status", Val.vStr (strL "Day 1"))], Phase.inSimulation⟩
        (List.replicate 10 [])).phase = Phase.recap ∧
    (runTurns ⟨1, [(strL "status", Val.vStr (strL "Day 1"))], Phase.inSimulation⟩
        ((List.replicate 10 []).take 9)).phase = Phase.inSimulation := by
  have h := claim_C3 ⟨1, [(strL "status", Val.vStr (strL "Day 1"))], Phase.inSimulation⟩
    (List.replicate 10 []) rfl rfl rfl (by decide)
  exact ⟨h.1, h.2 9 (by decide)⟩

end Crisis
